import Mathlib

/-!
Verification development for the UlearnContent backend services.

The Python services under `backend/app/services/` are embedded shallowly:
pure fragments become Lean functions, external libraries (pdfplumber, fitz,
cv2, pytesseract, the Mistral/Gemini/OpenAI clients, `json.loads`) become
explicit oracle parameters, and Python exceptions become `Except`/`Option`
values.  Regular-expression matching (`re.match`/`re.search`) is embedded by
a small backtracking engine over character classes, which is enough to
express every pattern occurring in the sources.
-/

/- ### Python string primitives -/

/-- The whitespace characters stripped by Python `str.strip()` and matched by
the regex class `\s` (ASCII fragment). -/
def pyWs (c : Char) : Bool :=
  c = ' ' || c = '\t' || c = '\n' || c = '\r' || c = '\x0b' || c = '\x0c'

/-- Python `str.strip()`: drop leading and trailing whitespace. -/
def pyStrip (s : String) : String :=
  ⟨((s.data.dropWhile pyWs).reverse.dropWhile pyWs).reverse⟩

/-- Regex class `[0-9]` / `\d` (ASCII), also the character test behind
Python `str.isdigit()`. -/
def digitCl (c : Char) : Bool := 48 ≤ c.toNat && c.toNat ≤ 57

/-- Python `str.isdigit()` (ASCII fragment): nonempty and all digits. -/
def pyIsDigit (s : String) : Bool :=
  !s.data.isEmpty && s.data.all digitCl

/-- Python `text.split('\n')` on a character list: split at every newline,
keeping empty fields. -/
def pySplitNlChars : List Char → List String
  | [] => [""]
  | c :: cs =>
      if c = '\n' then "" :: pySplitNlChars cs
      else
        match pySplitNlChars cs with
        | r :: rs => ⟨c :: r.data⟩ :: rs
        | [] => [⟨[c]⟩]

/-- Python `text.split('\n')`. -/
def pySplitNl (s : String) : List String := pySplitNlChars s.data

/- ### A backtracking regular-expression engine

Every pattern in the sources quantifies only over single-character classes,
so a regex is modelled as a sequence of items: single atoms, capturing
groups (themselves sequences of atoms), and the end anchor `$`.  Matching is
greedy with backtracking, exactly as in Python's `re`. -/

/-- A quantified character-class atom. -/
inductive RAtom where
  | one  (cl : Char → Bool)
  | star (cl : Char → Bool)
  | plus (cl : Char → Bool)

/-- A regex item: plain atom, capturing group of atoms, or the `$` anchor. -/
inductive RItem where
  | atom (a : RAtom)
  | grp (atoms : List RAtom)
  | eos

/-- All ways atom `a` can consume a prefix of `s`, as `(consumed, rest)`
pairs, in the preference order of a greedy backtracking matcher
(longest consumed prefix first). -/
def runAtom : RAtom → List Char → List (List Char × List Char)
  | .one _, [] => []
  | .one cl, c :: cs => if cl c then [([c], cs)] else []
  | .star cl, s =>
      ((List.range ((s.takeWhile cl).length + 1)).reverse).map
        (fun k => (s.take k, s.drop k))
  | .plus cl, s =>
      (((List.range ((s.takeWhile cl).length + 1)).reverse).filter (fun k => k ≠ 0)).map
        (fun k => (s.take k, s.drop k))

/-- All ways a sequence of atoms can consume a prefix of `s`, in greedy
backtracking preference order. -/
def runAtoms : List RAtom → List Char → List (List Char × List Char)
  | [], s => [([], s)]
  | a :: as, s =>
      (runAtom a s).flatMap (fun p =>
        (runAtoms as p.2).map (fun q => (p.1 ++ q.1, q.2)))

/-- Match an item sequence against `s`, anchored at the start (Python
`re.match`); returns the captured groups of the first (greedy-preferred)
successful branch.  Input remaining after the last item is allowed — the
patterns that must reach the end of the line carry an explicit `.eos`. -/
def matchItems : List RItem → List Char → Option (List (List Char))
  | [], _ => some []
  | .eos :: rest, s => if s.isEmpty then matchItems rest s else none
  | .atom a :: rest, s => (runAtom a s).findSome? (fun p => matchItems rest p.2)
  | .grp as :: rest, s =>
      (runAtoms as s).findSome?
        (fun p => (matchItems rest p.2).map (fun caps => p.1 :: caps))

/-- Python `re.match(pattern, s)`, producing the captured groups as strings. -/
def reMatch (items : List RItem) (s : String) : Option (List String) :=
  (matchItems items s.data).map (·.map (⟨·⟩))

/-- Python `re.search(pattern, s)`: does the pattern match starting at any
position of `s`? -/
def reSearch (items : List RItem) (s : String) : Bool :=
  (List.range (s.data.length + 1)).any (fun k => (matchItems items (s.data.drop k)).isSome)

/- ### Character classes used by the source patterns -/

/-- Regex class `[:\s]`. -/
def colonWsCl (c : Char) : Bool := c = ':' || pyWs c

/-- Regex `.` (matches anything but a newline). -/
def anyCl (c : Char) : Bool := c ≠ '\n'

/-- Regex class `[A-Z]`. -/
def upperCl (c : Char) : Bool := 65 ≤ c.toNat && c.toNat ≤ 90

/-- Regex class `[a-z]`. -/
def lowerCl (c : Char) : Bool := 97 ≤ c.toNat && c.toNat ≤ 122

/-- Regex class `[A-Z\s]`. -/
def upperWsCl (c : Char) : Bool := upperCl c || pyWs c

/-- Regex class `[a-z\s]`. -/
def lowerWsCl (c : Char) : Bool := lowerCl c || pyWs c

/-- A case-insensitive literal word, as produced by compiling a letter
sequence under `re.IGNORECASE`. -/
def litCI (w : String) : List RItem :=
  w.data.map (fun c => .atom (.one (fun x => x.toLower = c.toLower)))

/-- A literal dot. -/
def dotA : RAtom := .one (fun c => c = '.')

/- ### `PDFService._extract_structure` (pdf_service.py, lines 258-338) -/

/-- The shape shared by `^Chapter\s+(\d+)[:\s]*(.+)$` and its
Unit/Lesson/Topic/Section variants (all compiled with `re.IGNORECASE`). -/
def wordNumPat (w : String) : List RItem :=
  litCI w ++ [.atom (.plus pyWs), .grp [.plus digitCl], .atom (.star colonWsCl),
    .grp [.plus anyCl], .eos]

/-- `^(\d+)\.\s*(.+)$`. -/
def numDotPat : List RItem :=
  [.grp [.plus digitCl], .atom dotA, .atom (.star pyWs), .grp [.plus anyCl], .eos]

/-- `^(\d+)\s+(.+)$`. -/
def numSpacePat : List RItem :=
  [.grp [.plus digitCl], .atom (.plus pyWs), .grp [.plus anyCl], .eos]

/-- `^(\d+\.\d+)\s*(.+)$`. -/
def numNumPat : List RItem :=
  [.grp [.plus digitCl, dotA, .plus digitCl], .atom (.star pyWs), .grp [.plus anyCl], .eos]

/-- `^(\d+\.\d+\.\d+)\s*(.+)$`. -/
def numNumNumPat : List RItem :=
  [.grp [.plus digitCl, dotA, .plus digitCl, dotA, .plus digitCl], .atom (.star pyWs),
    .grp [.plus anyCl], .eos]

/-- `^(\d+\.\d+\.\d+\.\d+)\s*(.+)$`. -/
def numNumNumNumPat : List RItem :=
  [.grp [.plus digitCl, dotA, .plus digitCl, dotA, .plus digitCl, dotA, .plus digitCl],
    .atom (.star pyWs), .grp [.plus anyCl], .eos]

/-- The ordered chapter-pattern list of `_extract_structure`. -/
def chapterPatterns : List (List RItem) :=
  [ wordNumPat "Chapter", wordNumPat "CHAPTER",
    numDotPat, numSpacePat,
    wordNumPat "Unit", wordNumPat "UNIT",
    wordNumPat "Lesson", wordNumPat "LESSON",
    wordNumPat "Topic", wordNumPat "TOPIC",
    wordNumPat "Section", wordNumPat "SECTION",
    numNumPat, numNumNumPat ]

/-- The ordered section-pattern list of `_extract_structure`. -/
def sectionPatterns : List (List RItem) :=
  [ numNumNumPat, numNumNumNumPat,
    [.grp [.one upperCl, .plus upperWsCl], .eos],
    [.grp [.one upperCl, .plus lowerWsCl], .eos],
    [.grp [.one lowerCl, .plus lowerWsCl], .eos],
    [.grp [.one upperCl, .plus lowerCl, .one upperCl, .plus lowerWsCl], .eos] ]

/-- A chapter or section heading reference. -/
structure HeadingRef where
  number : String
  title : String
  line : Nat
deriving Repr, DecidableEq

/-- `match.group(2).strip() if len(match.groups()) > 1 else match.group(1)`. -/
def headTitle (caps : List String) : String :=
  if caps.length > 1 then pyStrip (caps.getD 1 "") else caps.getD 0 ""

/-- The chapter reference contributed by source line `lineNum` (0-based),
if any: the first matching chapter pattern wins, and the heading is kept
only when its title is longer than 2 characters and not purely numeric. -/
def chapterOf (lineNum : Nat) (raw : String) : Option HeadingRef :=
  if (pyStrip raw).length < 3 then none
  else
    match chapterPatterns.findSome? (fun p => reMatch p (pyStrip raw)) with
    | none => none
    | some caps =>
        if (headTitle caps).length > 2 && !pyIsDigit (headTitle caps) then
          some ⟨caps.getD 0 "", headTitle caps, lineNum + 1⟩
        else none

/-- The section reference contributed by source line `lineNum` (0-based), if
any; a line matching any chapter pattern never contributes a section. -/
def sectionOf (lineNum : Nat) (raw : String) : Option HeadingRef :=
  if (pyStrip raw).length < 3 then none
  else if chapterPatterns.any (fun p => (reMatch p (pyStrip raw)).isSome) then none
  else
    match sectionPatterns.findSome? (fun p => reMatch p (pyStrip raw)) with
    | none => none
    | some caps =>
        if (headTitle caps).length > 2 then
          some ⟨caps.getD 0 "", headTitle caps, lineNum + 1⟩
        else none

/-- The chapter/section outline inferred from a document's text. -/
structure StructureOutline where
  chapters : List HeadingRef
  sections : List HeadingRef
deriving Repr, DecidableEq

/-- Comparison key of the final `structure['chapters'].sort(key=...)`. -/
def byLine (a b : HeadingRef) : Prop := a.line ≤ b.line

instance : DecidableRel byLine := fun a b => inferInstanceAs (Decidable (a.line ≤ b.line))

instance : IsTotal HeadingRef byLine := ⟨fun a b => Nat.le_total a.line b.line⟩

instance : IsTrans HeadingRef byLine := ⟨fun _ _ _ h h' => Nat.le_trans h h'⟩

/-- `PDFService._extract_structure`: scan the text line by line, collect
chapter and section headings, and sort both lists by line number. -/
def extractStructure (text : String) : StructureOutline :=
  ⟨((pySplitNl text).enum.filterMap (fun p => chapterOf p.1 p.2)).insertionSort byLine,
   ((pySplitNl text).enum.filterMap (fun p => sectionOf p.1 p.2)).insertionSort byLine⟩

/- ### `PDFService._extract_text_with_pdfplumber` (pdf_service.py, lines 100-139) -/

/-- Python `sep.join(parts)`. -/
def pyJoin (sep : String) : List String → String
  | [] => ""
  | [x] => x
  | x :: xs => x ++ sep ++ pyJoin sep xs

/-- What pdfplumber delivers for one page: either `page.extract_text()` and
`page.images` both succeed (`extract_text` may return `None`), or the
page-level extraction raises with a message. -/
inductive PageOutcome where
  | ok (text : Option String) (numImages : Nat)
  | err (msg : String)
deriving Repr, DecidableEq

/-- One entry of the `pages` list returned by the text extractor. -/
structure PageRecord where
  page : Nat
  textLength : Nat
  hasImages : Bool
  error : Option String
deriving Repr, DecidableEq

/-- The dictionary returned by `_extract_text_with_pdfplumber`. -/
structure TextResult where
  text : String
  pages : List PageRecord
  totalPages : Nat
deriving Repr, DecidableEq

/-- The `pages_info` entry produced for page number `k`. -/
def pageRecord (k : Nat) : PageOutcome → PageRecord
  | .ok (some t) n => if !t.isEmpty then ⟨k, t.length, decide (n > 0), none⟩
      else ⟨k, 0, decide (n > 0), none⟩
  | .ok none n => ⟨k, 0, decide (n > 0), none⟩
  | .err m => ⟨k, 0, false, some m⟩

/-- The `text_parts` entry produced for page number `k`, if any. -/
def pageTextPart (k : Nat) : PageOutcome → Option String
  | .ok (some t) _ =>
      if !t.isEmpty then some ("--- Page " ++ toString k ++ " ---\n" ++ t) else none
  | _ => none

/-- The `pages_info` accumulated by the page loop starting at page number `k`. -/
def pagesInfoFrom (k : Nat) : List PageOutcome → List PageRecord
  | [] => []
  | o :: os => pageRecord k o :: pagesInfoFrom (k + 1) os

/-- The `text_parts` accumulated by the page loop starting at page number `k`. -/
def textPartsFrom (k : Nat) : List PageOutcome → List String
  | [] => []
  | o :: os =>
      match pageTextPart k o with
      | some t => t :: textPartsFrom (k + 1) os
      | none => textPartsFrom (k + 1) os

/-- `PDFService._extract_text_with_pdfplumber`, once `pdfplumber.open`
succeeded and delivered the given per-page outcomes. -/
def extractTextWithPdfplumber (pages : List PageOutcome) : TextResult :=
  ⟨pyJoin "\n\n" (textPartsFrom 1 pages), pagesInfoFrom 1 pages, pages.length⟩

/- ### `MistralOCRService.detect_content_type` (mistral_ocr_service.py, lines 302-362) -/

/-- Regex class `[a-zA-Z]`. -/
def alphaCl (c : Char) : Bool := upperCl c || lowerCl c

/-- Regex class `[a-zA-Z0-9+\-*/()]`. -/
def exprCl (c : Char) : Bool :=
  alphaCl c || digitCl c || c = '+' || c = '-' || c = '*' || c = '/' || c = '(' || c = ')'

/-- The ordered `math_patterns` list searched by `detect_content_type`
(compiled with `re.IGNORECASE`). -/
def mathPatterns : List (List RItem) :=
  [ [.atom (.one alphaCl), .atom (.star pyWs), .atom (.one (· = '=')),
      .atom (.star pyWs), .atom (.plus exprCl)],
    [.atom (.one alphaCl), .atom (.star pyWs), .atom (.one (· = '+')),
      .atom (.star pyWs), .atom (.one alphaCl)],
    [.atom (.one alphaCl), .atom (.star pyWs), .atom (.one (· = '*')),
      .atom (.star pyWs), .atom (.one alphaCl)],
    [.atom (.one alphaCl), .atom (.star pyWs), .atom (.one (· = '/')),
      .atom (.star pyWs), .atom (.one alphaCl)],
    [.atom (.one alphaCl), .atom (.star pyWs), .atom (.one (· = '^')),
      .atom (.star pyWs), .atom (.one digitCl)],
    [.atom (.one (· = '\\')), .atom (.plus alphaCl)],
    [.atom (.one alphaCl), .atom (.one (· = '_')), .atom (.one (· = '\x7b')),
      .atom (.plus digitCl), .atom (.one (· = '\x7d'))],
    [.atom (.one alphaCl), .atom (.one (· = '^')), .atom (.one (· = '\x7b')),
      .atom (.plus digitCl), .atom (.one (· = '\x7d'))],
    litCI "polynomial", litCI "function", litCI "variable", litCI "coefficient" ]

/-- What the vision stages deliver for one image: whether `cv2.imread`
returned an image, whether the grayscale/edge/Hough steps raised, the
line-segment list (`None` or its length), and the quick-OCR outcome. -/
structure ImgAnalysis where
  loaded : Bool
  cvErr : Option String
  houghLines : Option Nat
  ocr : Except String String
deriving Repr

/-- `lines is not None and len(lines) > 10`. -/
def linesOverThreshold : Option Nat → Bool
  | some n => decide (n > 10)
  | none => false

/-- `MistralOCRService.detect_content_type`: table when more than 10 line
segments were detected, else formula when a math pattern is found in the
quick-OCR text, else general; every exception degrades to general. -/
def detectContentType (img : ImgAnalysis) : String :=
  if !img.loaded then "general"
  else if img.cvErr.isSome then "general"
  else if linesOverThreshold img.houghLines then "table"
  else
    match img.ocr with
    | .ok t => if mathPatterns.any (fun p => reSearch p t) then "formula" else "general"
    | .error _ => "general"

/- ### Metatheory of the regex engine -/

/-- What it means for a single atom to consume exactly the characters `c`. -/
def AtomSpec : RAtom → List Char → Prop
  | .one cl, c => ∃ x, c = [x] ∧ cl x = true
  | .star cl, c => ∀ x ∈ c, cl x = true
  | .plus cl, c => c ≠ [] ∧ ∀ x ∈ c, cl x = true

/-- What it means for an atom sequence to consume exactly `c`. -/
def SeqSpec : List RAtom → List Char → Prop
  | [], c => c = []
  | a :: as, c => ∃ c1 c2, c = c1 ++ c2 ∧ AtomSpec a c1 ∧ SeqSpec as c2

/-- What it means for an item sequence to match `s` from the start with
captures `caps` (trailing input allowed). -/
def ItemsSpec : List RItem → List Char → List (List Char) → Prop
  | [], _, caps => caps = []
  | .eos :: rest, s, caps => s = [] ∧ ItemsSpec rest s caps
  | .atom a :: rest, s, caps => ∃ c r, s = c ++ r ∧ AtomSpec a c ∧ ItemsSpec rest r caps
  | .grp as :: rest, s, caps =>
      ∃ c r caps2, s = c ++ r ∧ SeqSpec as c ∧ ItemsSpec rest r caps2 ∧ caps = c :: caps2

/- ### Decimal rendering of integers in f-strings -/

/-- Decimal digit characters of `n`, with explicit fuel (`n + 1` always
suffices); matches the decimal rendering used by Python f-strings. -/
def natDigitsAux : Nat → Nat → List Char
  | 0, _ => []
  | fuel + 1, n =>
      if n < 10 then [Nat.digitChar n]
      else natDigitsAux fuel (n / 10) ++ [Nat.digitChar (n % 10)]

/-- Decimal string of a natural number (Python `str(n)` / `f"{n}"`). -/
def natStr (n : Nat) : String := ⟨natDigitsAux (n + 1) n⟩

/-- Numeric value of a decimal digit character. -/
def digitVal (c : Char) : Nat := c.toNat - 48

/-- The disposable path written for one image:
`f"temp_image_{page_num}_{img_index}.png"`. -/
def tempImagePath (pageNum imgIndex : Nat) : String :=
  "temp_image_" ++ natStr pageNum ++ "_" ++ natStr imgIndex ++ ".png"

/- ### `PDFService._extract_images_and_ocr` (pdf_service.py, lines 141-226) -/

/-- The dictionary returned by `MistralOCRService.extract_formula_from_image`
(that function catches its own exceptions, so both branches are values). -/
structure FormulaResult where
  success : Bool
  latex : Option String
  description : Option String
deriving Repr

/-- Outcome of the pixmap-conversion and temp-file-write block
(pdf_service.py lines 161-177): `convFail` — a raise before `open()`, so no
file exists when the handler continues; `writeFail` — `open()` created the
temp file and the write raised, so the handler continues with the file
still on disk and `os.remove` is never reached for it; `written` — the
file was fully written. -/
inductive WriteOutcome where
  | convFail (msg : String)
  | writeFail (msg : String)
  | written
deriving Repr, DecidableEq

/-- Did the write itself raise after `open()` created the file? -/
def isWriteFail : WriteOutcome → Bool
  | .writeFail _ => true
  | _ => false

/-- Did the conversion/write block create the temp file (fully written or
abandoned mid-write)? -/
def createsFile : WriteOutcome → Bool
  | .convFail _ => false
  | _ => true

/-- Per-image inputs of the image loop: the outcome of the conversion and
temp-file write, the vision analysis feeding content-type detection, and
the outcomes of the two OCR calls (a raise there is caught by the loop). -/
structure ImgCase where
  conv : WriteOutcome
  analysis : ImgAnalysis
  formulaOcr : Except String FormulaResult
  plainOcr : Except String String
deriving Repr

/-- One entry of `image_results`. -/
structure OcrResult where
  success : Bool
  contentType : String
  page : Nat
  imageIndex : Nat
  text : String
  latex : Option String
  error : Option String
deriving Repr, DecidableEq

/-- `PDFService._detect_content_type`: Mistral-based detection when the
service is configured, else `general`. -/
def pdfDetectContentType (mistral : Bool) (a : ImgAnalysis) : String :=
  if mistral then detectContentType a else "general"

/-- Body of the per-image loop: write the temp image, detect its type, run
the appropriate OCR (failures caught), record the result when successful,
and remove the temp file.  A conversion failure skips the image before any
file exists; a write failure skips it AFTER the file was created, so the
created file stays (the handler `continue`s without reaching `os.remove`). -/
def processImage (mistral : Bool) (pageNum imgIndex : Nat) (c : ImgCase)
    (st : List String × List OcrResult) : List String × List OcrResult :=
  match c.conv with
  | .convFail _ => st
  | .writeFail _ => (tempImagePath pageNum imgIndex :: st.1, st.2)
  | .written =>
    let fs1 := tempImagePath pageNum imgIndex :: st.1
    let ct := pdfDetectContentType mistral c.analysis
    let res : OcrResult :=
      if ct = "formula" && mistral then
        match c.formulaOcr with
        | .ok fr => ⟨fr.success, "formula", pageNum + 1, imgIndex, "", fr.latex, none⟩
        | .error e => ⟨false, ct, pageNum + 1, imgIndex, "", none, some e⟩
      else
        match c.plainOcr with
        | .ok t => ⟨true, ct, pageNum + 1, imgIndex, t, none, none⟩
        | .error e => ⟨false, ct, pageNum + 1, imgIndex, "", none, some e⟩
    (fs1.erase (tempImagePath pageNum imgIndex),
      if res.success then st.2 ++ [res] else st.2)

/-- The inner loop over one page's images, with running image index. -/
def processImages (mistral : Bool) (pageNum : Nat) :
    Nat → List ImgCase → List String × List OcrResult → List String × List OcrResult
  | _, [], st => st
  | idx, c :: rest, st =>
      processImages mistral pageNum (idx + 1) rest (processImage mistral pageNum idx c st)

/-- The outer loop over pages (`page_num` starts at 0 as in `range(len(doc))`). -/
def processPages (mistral : Bool) :
    Nat → List (List ImgCase) → List String × List OcrResult → List String × List OcrResult
  | _, [], st => st
  | pageNum, pg :: rest, st =>
      processPages mistral (pageNum + 1) rest (processImages mistral pageNum 0 pg st)

/-- `PDFService._extract_images_and_ocr`, threading the collection of
existing temp files: failure to open the document is caught and logged and
the (empty) accumulated result list is returned. -/
def extractImagesAndOcr (mistral : Bool) (doc : Except String (List (List ImgCase)))
    (fs : List String) : List String × List OcrResult :=
  match doc with
  | .error _ => (fs, [])
  | .ok pages => processPages mistral 0 pages (fs, [])

/-- The temp paths created during one extraction (one per image whose
`open()` ran, the abandoned mid-write ones included). -/
def writtenPathsImgs (pageNum : Nat) : Nat → List ImgCase → List String
  | _, [] => []
  | idx, c :: rest =>
      (if createsFile c.conv then [tempImagePath pageNum idx] else []) ++
        writtenPathsImgs pageNum (idx + 1) rest

/-- All temp paths written for a document, page by page. -/
def writtenPaths : Nat → List (List ImgCase) → List String
  | _, [] => []
  | pageNum, pg :: rest =>
      writtenPathsImgs pageNum 0 pg ++ writtenPaths (pageNum + 1) rest

/-- A sample document for exercising the extraction: one page holding two
images whose temp-file writes both complete. -/
def c9doc : List (List ImgCase) :=
  [[⟨.written, ⟨true, none, none, .error "ocr down"⟩, .error "ocr down", .ok "alpha"⟩,
    ⟨.written, ⟨true, none, some 12, .error "ocr down"⟩, .error "ocr down", .ok "beta"⟩]]

/- ### `PDFService.extract_text_from_pdf` (pdf_service.py, lines 28-98) -/

/-- The `content_breakdown` counts. -/
structure ContentBreakdown where
  tables : Nat
  formulas : Nat
  diagrams : Nat
  generalImages : Nat
deriving Repr, DecidableEq

/-- The line contributed to the merged text by one image result (the
successful results carry no `table_data`, so the table branch renders the
plain text; `description` falls back to `text` likewise). -/
def imageTextLine (r : OcrResult) : String :=
  if r.contentType = "table" then
    "[Table from page " ++ natStr r.page ++ "]: " ++ r.text
  else if r.contentType = "formula" then
    "[Formula from page " ++ natStr r.page ++ "]: " ++
      (match r.latex with | some l => l | none => r.text)
  else if r.contentType = "diagram" then
    "[Diagram from page " ++ natStr r.page ++ "]: " ++ r.text
  else
    "[Image from page " ++ natStr r.page ++ "]: " ++ r.text

/-- The dictionary returned by `extract_text_from_pdf` on success. -/
structure PdfResult where
  success : Bool
  text : String
  outline : StructureOutline
  pages : List PageRecord
  imageCount : Nat
  totalPages : Nat
  breakdown : ContentBreakdown
deriving Repr, DecidableEq

/-- Number of image results of one content type. -/
def countType (rs : List OcrResult) (t : String) : Nat :=
  (rs.filter (fun r => r.contentType = t)).length

/-- The external-world inputs of one `extract_text_from_pdf` call. -/
structure PdfInput where
  fileExists : Bool
  plumber : Except String (List PageOutcome)
  fitz : Except String (List (List ImgCase))
  mistral : Bool

/-- `PDFService.extract_text_from_pdf`: a missing file or a pdfplumber
failure propagates to the caller; the image subsystem's outcome is folded
in through `_extract_images_and_ocr` (which swallows its own failure). -/
def extractTextFromPdf (inp : PdfInput) : Except String PdfResult :=
  if !inp.fileExists then .error "PDF file not found"
  else
    match inp.plumber with
    | .error e => .error e
    | .ok pages =>
        let tc := extractTextWithPdfplumber pages
        let imgs := (extractImagesAndOcr inp.mistral inp.fitz []).2
        let allText := tc.text ++ "\n\n" ++ pyJoin "\n\n" (imgs.map imageTextLine)
        .ok ⟨true, allText, extractStructure tc.text, tc.pages, imgs.length,
          tc.totalPages,
          ⟨countType imgs "table", countType imgs "formula", countType imgs "diagram",
            imgs.length - countType imgs "table" - countType imgs "formula" -
              countType imgs "diagram"⟩⟩

instance {e a : Type} [DecidableEq e] [DecidableEq a] : DecidableEq (Except e a) :=
  fun x y =>
  match x, y with
  | .error u, .error v =>
      if h : u = v then .isTrue (congrArg Except.error h)
      else .isFalse (fun hh => h (Except.error.inj hh))
  | .error _, .ok _ => .isFalse (fun hh => Except.noConfusion hh)
  | .ok _, .error _ => .isFalse (fun hh => Except.noConfusion hh)
  | .ok u, .ok v =>
      if h : u = v then .isTrue (congrArg Except.ok h)
      else .isFalse (fun hh => h (Except.ok.inj hh))

/- ### Python values and dictionaries -/

/-- A Python value, as handled by the JSON-normalising services. -/
inductive PyVal where
  | str (s : String)
  | int (n : Int)
  | bool (b : Bool)
  | none
  | list (xs : List PyVal)
  | dict (kvs : List (String × PyVal))
deriving Repr

/-- `d.get(key, default)` on an association-list dictionary. -/
def pyGet (kvs : List (String × PyVal)) (k : String) (dflt : PyVal) : PyVal :=
  match kvs.find? (fun p => p.1 = k) with
  | some p => p.2
  | Option.none => dflt

/-- Python `str(int)`. -/
def intStr (n : Int) : String :=
  if n < 0 then "-" ++ natStr n.natAbs else natStr n.toNat

mutual

/-- Python `repr(value)` (string escaping simplified to plain quoting). -/
def pyRepr : PyVal → String
  | .str s => "'" ++ s ++ "'"
  | .int n => intStr n
  | .bool b => if b then "True" else "False"
  | .none => "None"
  | .list xs => "[" ++ pyJoin ", " (pyReprList xs) ++ "]"
  | .dict kvs => "\x7b" ++ pyJoin ", " (pyReprKvs kvs) ++ "\x7d"

/-- `repr` of each element of a list. -/
def pyReprList : List PyVal → List String
  | [] => []
  | x :: xs => pyRepr x :: pyReprList xs

/-- `repr` of each key/value pair of a dictionary. -/
def pyReprKvs : List (String × PyVal) → List String
  | [] => []
  | (k, v) :: xs => ("'" ++ k ++ "': " ++ pyRepr v) :: pyReprKvs xs

end

/-- Python `str(value)`. -/
def pyStr : PyVal → String
  | .str s => s
  | v => pyRepr v

/- ### `ExcelService.parse_json_data` (excel_service.py, lines 301-377) -/

/-- Python `pre in`-free prefix test on characters. -/
def pyStartsWith (s pre : String) : Bool := pre.data.isPrefixOf s.data

/-- Suffix test on characters. -/
def pyEndsWith (s suf : String) : Bool := suf.data.isSuffixOf s.data

/-- `s[n:]` on characters. -/
def pyDropChars (s : String) (n : Nat) : String := ⟨s.data.drop n⟩

/-- `s[:-n]` on characters. -/
def pyDropRightChars (s : String) (n : Nat) : String :=
  ⟨s.data.take (s.data.length - n)⟩

/-- The fence-stripping prelude of the string branch:
strip, remove a leading ```json and a trailing ```, strip again. -/
def stripFence (s : String) : String :=
  let s1 := pyStrip s
  let s2 := if pyStartsWith s1 "```json" then pyDropChars s1 7 else s1
  let s3 := if pyEndsWith s2 "```" then pyDropRightChars s2 3 else s2
  pyStrip s3

/-- A normalised row `{'Topic': …, 'Subtopic': …, 'Content': …, 'Video Link': …}`. -/
def mkRow (t s c v : String) : PyVal :=
  .dict [("Topic", .str t), ("Subtopic", .str s), ("Content", .str c),
    ("Video Link", .str v)]

/-- Row built from a parsed JSON object (lower-case keys, default `''`). -/
def rowOfJson (kvs : List (String × PyVal)) : PyVal :=
  mkRow (pyStrip (pyStr (pyGet kvs "topic" (.str ""))))
    (pyStrip (pyStr (pyGet kvs "subtopic" (.str ""))))
    (pyStrip (pyStr (pyGet kvs "content" (.str ""))))
    (pyStrip (pyStr (pyGet kvs "video_link" (.str ""))))

/-- Row built from an item that is already a dictionary (lower-case keys
first, then the capitalised spreadsheet keys). -/
def rowOfDict (kvs : List (String × PyVal)) : PyVal :=
  mkRow (pyStrip (pyStr (pyGet kvs "topic" (pyGet kvs "Topic" (.str "")))))
    (pyStrip (pyStr (pyGet kvs "subtopic" (pyGet kvs "Subtopic" (.str "")))))
    (pyStrip (pyStr (pyGet kvs "content" (pyGet kvs "Content" (.str "")))))
    (pyStrip (pyStr (pyGet kvs "video_link"
      (pyGet kvs "Video Link" (pyGet kvs "Video_Link" (.str ""))))))

/-- Normalisation of one element of the input list of `parse_json_data`;
`loads` is the `json.loads` oracle (`none` models a `JSONDecodeError`). -/
def parseItem (loads : String → Option PyVal) : PyVal → List PyVal
  | .str s =>
      match loads (stripFence s) with
      | some (.list xs) =>
          xs.filterMap (fun x =>
            match x with
            | .dict kvs => some (rowOfJson kvs)
            | _ => Option.none)
      | some (.dict kvs) => [rowOfJson kvs]
      | some _ => [mkRow "" "" (pyStrip s) ""]
      | Option.none => [mkRow "" "" (pyStrip s) ""]
  | .dict kvs => [rowOfDict kvs]
  | v => [mkRow "" "" (pyStrip (pyStr v)) ""]

/-- `ExcelService.parse_json_data`. -/
def parseJsonData (loads : String → Option PyVal) (data : List PyVal) : List PyVal :=
  data.flatMap (parseItem loads)

/-- One-sided strip from the right. -/
def dropTrail (p : Char → Bool) (l : List Char) : List Char :=
  ((l.reverse).dropWhile p).reverse

/- ### `ExcelService.create_advanced_excel` (excel_service.py, lines 222-299) -/

/-- One entry of `detailed_content['tables']`: whether the entry carries a
`table_data` key, and the `rows` found under it. -/
structure TableEntry where
  hasTableData : Bool
  rows : List (List (String × PyVal))

/-- The `detailed_content` argument. -/
structure DetailedContent where
  tables : List TableEntry
  formulas : List (List (String × PyVal))
  diagrams : List (List (String × PyVal))

/-- Number of rows collected by `_add_tables_sheet` (one per row of every
entry that has a truthy `table_data['rows']`); the `Tables` sheet is added
only when this is non-zero. -/
def tablesSheetRows (tables : List TableEntry) : Nat :=
  (tables.map (fun t => if t.hasTableData && !t.rows.isEmpty then t.rows.length else 0)).sum

/-- The sheet names added by `_add_detailed_content_sheets`, in order. -/
def detailedSheets (dc : DetailedContent) : List String :=
  (if !dc.tables.isEmpty then
    (if tablesSheetRows dc.tables ≠ 0 then ["Tables"] else []) else []) ++
  (if !dc.formulas.isEmpty then ["Formulas"] else []) ++
  (if !dc.diagrams.isEmpty then ["Diagrams"] else [])

/-- The sheet inventory of the workbook produced by `create_advanced_excel`,
in creation order: `Content` always, `Metadata` only under `if metadata:`
(a supplied non-empty mapping), `Summary` unconditionally, then the
detailed sheets under `if detailed_content:`. -/
def advancedExcelSheets (metadata : Option (List (String × PyVal)))
    (detailed : Option DetailedContent) : List String :=
  ["Content"] ++
  (match metadata with
   | some kvs => if !kvs.isEmpty then ["Metadata"] else []
   | Option.none => []) ++
  ["Summary"] ++
  (match detailed with
   | some dc => detailedSheets dc
   | Option.none => [])

/- ### `LLMService.generate_educational_content` (llm_service.py, lines 350-494) -/

/-- `len(s.split())`: number of whitespace-separated tokens. -/
def wordCountAux : List Char → Bool → Nat
  | [], _ => 0
  | c :: cs, inWord =>
      if pyWs c then wordCountAux cs false
      else (if inWord then 0 else 1) + wordCountAux cs true

/-- Python `len(response.split())`. -/
def pyWordCount (s : String) : Nat := wordCountAux s.data false

/-- The oracle outcomes consumed by one `generate_educational_content`
call: the main Gemini generation call, the key-concepts call, the
`json.loads` applied to the key-concepts response, and the wall-clock
values stored under `processed_at` / `processing_time`. -/
structure GenEnv where
  gen : Except String String
  keyConcepts : Except String String
  loads : String → Option PyVal
  processedAt : PyVal
  processingTime : PyVal

/-- Dictionary lookup (`d[k]` as an `Option`). -/
def dLookup (kvs : List (String × PyVal)) (k : String) : Option PyVal :=
  (kvs.find? (fun p => p.1 = k)).map (·.2)

/-- `LLMService.generate_educational_content`: on a successful generation
call it returns the success dictionary with exactly the keys written at
lines 472-485 of llm_service.py; on any exception the failure dictionary
of lines 489-494. -/
def generateEducationalContent (env : GenEnv) (text contentType : String)
    (topic : Option String) (difficulty audience : String) :
    List (String × PyVal) :=
  match env.gen with
  | .error e =>
      [("success", .bool false), ("error", .str e), ("original_text", .str text),
        ("content_type", .str contentType)]
  | .ok response =>
      [("success", .bool true), ("original_text", .str text),
        ("generated_content", .str response), ("content_type", .str contentType),
        ("topic", match topic with | some t => .str t | Option.none => PyVal.none),
        ("difficulty_level", .str difficulty), ("target_audience", .str audience),
        ("processed_at", env.processedAt),
        ("word_count", .int (pyWordCount response)),
        ("key_concepts",
          match env.keyConcepts with
          | .error _ => .list []
          | .ok kr =>
              if pyStartsWith kr "[" then
                match env.loads kr with
                | some v => v
                | Option.none => .list []
              else .list []),
        ("processing_time", env.processingTime),
        ("model_used", .str "gemini-2.5-flash")]

/- ### `PDFService._analyze_content_with_llm` (pdf_service.py, lines 379-493) -/

/-- Python truthiness. -/
def pyTruthy : PyVal → Bool
  | .bool b => b
  | .str s => !s.data.isEmpty
  | .int n => decide (n ≠ 0)
  | .none => false
  | .list xs => !xs.isEmpty
  | .dict kvs => !kvs.isEmpty

/-- `d[k]` with `KeyError` semantics. -/
def dGetE (kvs : List (String × PyVal)) (k : String) : Except String PyVal :=
  match kvs.find? (fun p => p.1 = k) with
  | some p => .ok p.2
  | Option.none => .error ("KeyError: " ++ k)

/-- `chapter_text[:1000] + "..." if len(chapter_text) > 1000 else chapter_text`. -/
def truncate1000 (t : String) : String :=
  if t.length > 1000 then (⟨t.data.take 1000⟩ : String) ++ "..." else t

/-- `f"Chapter {chapter['number']}: {chapter['title']}"`. -/
def chapterTopic (ch : HeadingRef) : String :=
  "Chapter " ++ ch.number ++ ": " ++ ch.title

/-- `chapter_end`: the full line count for (a chapter equal to) the last
chapter, else the line of the chapter after this one's first occurrence. -/
def chapterEnd (text : String) (chapters : List HeadingRef) (ch : HeadingRef) : Nat :=
  if ch = chapters.getLastD ⟨"", "", 0⟩ then (pySplitNl text).length
  else (chapters.getD (chapters.indexOf ch + 1) ch).line

/-- `'\n'.join(lines[chapter_start-1:chapter_end-1])`. -/
def chapterTextOf (text : String) (chapters : List HeadingRef) (ch : HeadingRef) : String :=
  pyJoin "\n"
    (((pySplitNl text).drop (ch.line - 1)).take
      (chapterEnd text chapters ch - 1 - (ch.line - 1)))

/-- The basic fallback row appended when generation fails (or the success
path raises). -/
def fallbackItem (topicStr chText : String) : PyVal :=
  .dict [("topic", .str topicStr), ("subtopic", .str "Main Content"),
    ("content", .str (truncate1000 chText)), ("video_link", .str "")]

/-- The row built from one LLM content item on the success path. -/
def itemFromLlm (topicStr : String) (kvs : List (String × PyVal)) : PyVal :=
  .dict [("topic", pyGet kvs "topic" (.str topicStr)),
    ("subtopic", pyGet kvs "subtopic" (.str "")),
    ("content", pyGet kvs "content" (.str "")),
    ("video_link", pyGet kvs "video_link" (.str ""))]

/-- The `try`-block of one chapter (or of the whole-text branch): read
`content_result['success']`; on a truthy value iterate
`content_result['content_items']` building rows, else append the basic
fallback; any exception in the block (in particular the `KeyError` on
`content_items`) is caught and also yields the basic fallback. -/
def chapterItems (res : List (String × PyVal)) (topicStr chText : String) :
    List PyVal :=
  let attempt : Except String (List PyVal) := do
    let s ← dGetE res "success"
    if pyTruthy s then do
      let itemsV ← dGetE res "content_items"
      match itemsV with
      | .list items =>
          items.mapM (fun it =>
            match it with
            | .dict kvs => Except.ok (itemFromLlm topicStr kvs)
            | _ => Except.error "AttributeError")
      | _ => Except.error "TypeError"
    else
      Except.ok [fallbackItem topicStr chText]
  match attempt with
  | .ok l => l
  | .error _ => [fallbackItem topicStr chText]

/-- `PDFService._analyze_content_with_llm`: with chapters, one
`generate_educational_content` call per chapter over that chapter's text;
without chapters, a single call over the whole text with generic labels;
`envs i` supplies the oracle outcomes of the i-th call. -/
def analyzeContentWithLLM (envs : Nat → GenEnv) (text : String)
    (st : StructureOutline) : List PyVal :=
  if st.chapters.isEmpty then
    chapterItems
      (generateEducationalContent (envs 0) text "educational" Option.none
        "intermediate" "students")
      "General Content" text
  else
    (List.enumFrom 0 st.chapters).flatMap (fun p =>
      chapterItems
        (generateEducationalContent (envs p.1)
          (chapterTextOf text st.chapters p.2) "educational"
          (some (chapterTopic p.2)) "intermediate" "students")
        (chapterTopic p.2) (chapterTextOf text st.chapters p.2))

/-- The concrete two-line text (an 1100-character chapter line) used in the
C10 counterexample. -/
def c10text : String := (⟨List.replicate 1100 'a'⟩ : String) ++ "\nend"

/-! ## Theorems -/

/- ### C1: the structure inferencer on the sample input -/

/-- C1 (counterexample): on `"Chapter 1: Intro\nSome text\n1.1 Details\n"`
the structure inferencer does NOT return one chapter `("1", "Intro", 1)` and
one section `("1.1", "Details", 3)`: the claimed output differs from the
computed one (the line `1.1 Details` is captured by the chapter pattern
`^(\d+)\.\s*(.+)$` before `^(\d+\.\d+)\s*(.+)$` is ever tried, and
`Some text` matches the section pattern `^([A-Z][a-z\s]+)$`). -/
theorem C1_claimed_outline_refuted :
    extractStructure "Chapter 1: Intro\nSome text\n1.1 Details\n" ≠
      ⟨[⟨"1", "Intro", 1⟩], [⟨"1.1", "Details", 3⟩]⟩ := by decide

/-- C1 (amended): on `"Chapter 1: Intro\nSome text\n1.1 Details\n"` the
structure inferencer returns two chapters — `("1", "Intro")` at line 1 and
`("1", "1 Details")` at line 3 — and one section `("Some text", "Some text")`
at line 2. -/
theorem C1_outline_on_sample :
    extractStructure "Chapter 1: Intro\nSome text\n1.1 Details\n" =
      ⟨[⟨"1", "Intro", 1⟩, ⟨"1", "1 Details", 3⟩],
       [⟨"Some text", "Some text", 2⟩]⟩ := by decide

/-- `pagesInfoFrom` yields one record per page. -/
theorem pagesInfoFrom_length (k : Nat) (l : List PageOutcome) :
    (pagesInfoFrom k l).length = l.length := by
  induction l generalizing k with
  | nil => rfl
  | cons o os ih => simp [pagesInfoFrom, ih]

/-- The record of page number `k` starts at `k` whatever the outcome. -/
theorem pageRecord_page (k : Nat) (o : PageOutcome) : (pageRecord k o).page = k := by
  cases o with
  | ok t n => cases t with
    | none => rfl
    | some s => by_cases h : !s.isEmpty <;> simp [pageRecord, h]
  | err m => rfl

/-- The page numbers of `pagesInfoFrom k` are `k, k+1, …` in order. -/
theorem pagesInfoFrom_map_page (k : Nat) (l : List PageOutcome) :
    (pagesInfoFrom k l).map (·.page) = List.range' k l.length := by
  induction l generalizing k with
  | nil => rfl
  | cons o os ih => simp [pagesInfoFrom, List.range'_succ, pageRecord_page, ih]

/-- A raising page contributes the error record and processing continues. -/
theorem pagesInfoFrom_get_err (k i : Nat) (m : String) (l : List PageOutcome)
    (h : l.get? i = some (.err m)) :
    (pagesInfoFrom k l).get? i = some ⟨k + i, 0, false, some m⟩ := by
  induction l generalizing k i with
  | nil => simp at h
  | cons o os ih =>
      cases i with
      | zero => simp_all [pagesInfoFrom, pageRecord]
      | succ j =>
          simp only [List.get?] at h
          have := ih (k + 1) j h
          simpa [pagesInfoFrom, Nat.add_assoc, Nat.add_comm 1 j] using this

/-- C2: for every PDF with `N` pages the text extractor returns exactly `N`
page records, numbered `1..N` in ascending order, together with
`total_pages = N`; a page whose extraction raises contributes the record
`{text_length = 0, has_images = false, error = msg}` at its position, and
the remaining pages are still processed. -/
theorem C2_page_records (pages : List PageOutcome) :
    (extractTextWithPdfplumber pages).pages.length = pages.length ∧
    (extractTextWithPdfplumber pages).pages.map (·.page) = List.range' 1 pages.length ∧
    (extractTextWithPdfplumber pages).totalPages = pages.length ∧
    ∀ i m, pages.get? i = some (.err m) →
      (extractTextWithPdfplumber pages).pages.get? i = some ⟨i + 1, 0, false, some m⟩ := by
  refine ⟨pagesInfoFrom_length 1 pages, pagesInfoFrom_map_page 1 pages, rfl, ?_⟩
  intro i m h
  simpa [Nat.add_comm] using pagesInfoFrom_get_err 1 i m pages h

/-- C2 witness: on a two-page document whose first page raises, the records
are numbered 1, 2 and the first record is the error record. -/
theorem C2_page_records_witness :
    (extractTextWithPdfplumber [.err "boom", .ok (some "hi") 0]).pages.map (·.page) =
        List.range' 1 2 ∧
    (extractTextWithPdfplumber [.err "boom", .ok (some "hi") 0]).pages.get? 0 =
        some ⟨1, 0, false, some "boom"⟩ :=
  ⟨(C2_page_records [.err "boom", .ok (some "hi") 0]).2.1,
   (C2_page_records [.err "boom", .ok (some "hi") 0]).2.2.2 0 "boom" (by decide)⟩

/-- C3 (counterexample): an image on which line-segment detection returns
exactly 10 segments (and whose quick OCR raises) is classified `general`,
not `table` — the source tests `len(lines) > 10`, so 10 segments fall
through. -/
theorem C3_ten_segments_not_table :
    detectContentType ⟨true, none, some 10, .error "tesseract failed"⟩ = "general" ∧
    (10 : Nat) ≥ 10 := by
  exact ⟨by decide, by decide⟩

/-- C3 (amended): for every image that loads, whose vision stages do not
raise, and on which line-segment detection returns MORE than 10 segments,
the classifier returns `table` without reaching the formula or general
branches. -/
theorem C3_many_segments_table (img : ImgAnalysis) (n : Nat)
    (hl : img.loaded = true) (he : img.cvErr = none)
    (hh : img.houghLines = some n) (hn : n > 10) :
    detectContentType img = "table" := by
  simp [detectContentType, linesOverThreshold, hl, he, hh, hn]

/-- C3 witness: a loaded image with 11 detected segments is a table. -/
theorem C3_many_segments_table_witness :
    detectContentType ⟨true, none, some 11, .error "unused"⟩ = "table" :=
  C3_many_segments_table ⟨true, none, some 11, .error "unused"⟩ 11 rfl rfl rfl (by decide)

theorem length_le_takeWhile {cl : Char → Bool} (c r : List Char)
    (h : ∀ x ∈ c, cl x = true) : c.length ≤ ((c ++ r).takeWhile cl).length := by
  induction c with
  | nil => simp
  | cons x xs ih =>
      have hx : cl x = true := h x (List.mem_cons_self x xs)
      have hxs : ∀ y ∈ xs, cl y = true := fun y hy => h y (List.mem_cons_of_mem x hy)
      simpa [List.takeWhile_cons, hx] using ih hxs

theorem all_of_take_le_takeWhile {cl : Char → Bool} {s : List Char} {k : Nat}
    (hk : k ≤ (s.takeWhile cl).length) : ∀ x ∈ s.take k, cl x = true := by
  induction s generalizing k with
  | nil => simp
  | cons y ys ih =>
      cases k with
      | zero => simp
      | succ k' =>
          by_cases hy : cl y = true
          · simp only [List.takeWhile_cons, hy, if_true, List.length_cons,
              Nat.succ_le_succ_iff] at hk
            intro x hx
            rcases List.mem_cons.mp (by simpa [List.take] using hx) with h | h
            · exact h ▸ hy
            · exact ih hk x h
          · simp [List.takeWhile_cons, hy] at hk

theorem runAtom_sound {a : RAtom} {s c r : List Char}
    (h : (c, r) ∈ runAtom a s) : s = c ++ r ∧ AtomSpec a c := by
  cases a with
  | one cl =>
      cases s with
      | nil => simp [runAtom] at h
      | cons x xs =>
          by_cases hx : cl x = true
          · simp [runAtom, hx] at h
            exact ⟨by simp [h.1, h.2], ⟨x, by simp [h.1], hx⟩⟩
          · simp [runAtom, hx] at h
  | star cl =>
      simp only [runAtom, List.mem_map, List.mem_reverse, List.mem_range] at h
      obtain ⟨k, hk, hkr⟩ := h
      obtain ⟨hc, hr⟩ := Prod.mk.injEq .. ▸ hkr
      subst hc; subst hr
      refine ⟨(List.take_append_drop k s).symm, ?_⟩
      exact all_of_take_le_takeWhile (Nat.le_of_lt_succ hk)
  | plus cl =>
      simp only [runAtom, List.mem_map, List.mem_filter, List.mem_reverse,
        List.mem_range] at h
      obtain ⟨k, ⟨hk, hk0⟩, hkr⟩ := h
      obtain ⟨hc, hr⟩ := Prod.mk.injEq .. ▸ hkr
      subst hc; subst hr
      have hk0' : k ≠ 0 := by simpa using hk0
      refine ⟨(List.take_append_drop k s).symm, ?_, ?_⟩
      · have hlen : (s.takeWhile cl).length ≤ s.length :=
          (List.takeWhile_sublist cl).length_le
        have : s.take k ≠ [] := by
          intro hnil
          have h0 := congrArg List.length hnil
          rw [List.length_take] at h0
          simp only [List.length_nil] at h0
          omega
        exact this
      · exact all_of_take_le_takeWhile (Nat.le_of_lt_succ hk)

theorem runAtom_complete {a : RAtom} {c r : List Char} (h : AtomSpec a c) :
    (c, r) ∈ runAtom a (c ++ r) := by
  cases a with
  | one cl =>
      obtain ⟨x, rfl, hx⟩ := h
      simp [runAtom, hx]
  | star cl =>
      have hk := length_le_takeWhile c r h
      simp only [runAtom, List.mem_map, List.mem_reverse, List.mem_range]
      exact ⟨c.length, Nat.lt_succ_of_le hk, by simp⟩
  | plus cl =>
      have hk := length_le_takeWhile c r h.2
      simp only [runAtom, List.mem_map, List.mem_filter, List.mem_reverse,
        List.mem_range]
      refine ⟨c.length, ⟨Nat.lt_succ_of_le hk, ?_⟩, by simp⟩
      simpa using fun hc => h.1 (List.length_eq_zero.mp hc)

theorem runAtoms_sound {as : List RAtom} {s c r : List Char}
    (h : (c, r) ∈ runAtoms as s) : s = c ++ r ∧ SeqSpec as c := by
  induction as generalizing s c r with
  | nil => simp [runAtoms] at h; simp [h, SeqSpec]
  | cons a as ih =>
      simp only [runAtoms, List.mem_flatMap, List.mem_map] at h
      obtain ⟨p, hp, q, hq, hpq⟩ := h
      obtain ⟨hc, hr⟩ := Prod.mk.injEq .. ▸ hpq
      obtain ⟨hs1, ha⟩ := runAtom_sound hp
      obtain ⟨hs2, hseq⟩ := ih hq
      subst hc; subst hr
      exact ⟨by simp [hs1, hs2], p.1, q.1, rfl, ha, hseq⟩

theorem runAtoms_complete {as : List RAtom} {c r : List Char} (h : SeqSpec as c) :
    (c, r) ∈ runAtoms as (c ++ r) := by
  induction as generalizing c r with
  | nil => simp [SeqSpec] at h; simp [runAtoms, h]
  | cons a as ih =>
      obtain ⟨c1, c2, rfl, ha, hseq⟩ := h
      simp only [runAtoms, List.mem_flatMap, List.mem_map]
      refine ⟨(c1, c2 ++ r), by simpa [List.append_assoc] using runAtom_complete ha,
        (c2, r), ih hseq, by simp⟩

theorem mem_of_findSome_eq_some {α β : Type} {l : List α} {f : α → Option β} {b : β}
    (h : l.findSome? f = some b) : ∃ a ∈ l, f a = some b := by
  induction l with
  | nil => simp [List.findSome?] at h
  | cons x xs ih =>
      rw [List.findSome?] at h
      cases hx : f x with
      | some v => rw [hx] at h; exact ⟨x, List.mem_cons_self x xs, hx.trans h⟩
      | none =>
          rw [hx] at h
          obtain ⟨a, ha, hfa⟩ := ih h
          exact ⟨a, List.mem_cons_of_mem x ha, hfa⟩

theorem findSome_isSome_of_mem {α β : Type} {l : List α} {f : α → Option β} {a : α}
    (ha : a ∈ l) (hb : (f a).isSome) : (l.findSome? f).isSome := by
  induction l with
  | nil => simp at ha
  | cons x xs ih =>
      rw [List.findSome?]
      cases hx : f x with
      | some v => simp
      | none =>
          rcases List.mem_cons.mp ha with rfl | ha'
          · rw [hx] at hb; simp at hb
          · exact ih ha'

theorem matchItems_sound {items : List RItem} {s : List Char} {caps : List (List Char)}
    (h : matchItems items s = some caps) : ItemsSpec items s caps := by
  induction items generalizing s caps with
  | nil => simp [matchItems] at h; simp [ItemsSpec, h]
  | cons it rest ih =>
      cases it with
      | eos =>
          simp only [matchItems] at h
          by_cases hs : s.isEmpty
          · rw [if_pos hs] at h
            exact ⟨List.isEmpty_iff.mp hs, ih h⟩
          · rw [if_neg hs] at h; exact absurd h (by simp)
      | atom a =>
          simp only [matchItems] at h
          obtain ⟨p, hp, hfp⟩ := mem_of_findSome_eq_some h
          obtain ⟨hs, ha⟩ := runAtom_sound (by simpa using hp)
          exact ⟨p.1, p.2, hs, ha, ih hfp⟩
      | grp as =>
          simp only [matchItems] at h
          obtain ⟨p, hp, hfp⟩ := mem_of_findSome_eq_some h
          obtain ⟨caps2, hcaps2, hmap⟩ := Option.map_eq_some'.mp hfp
          obtain ⟨hs, hseq⟩ := runAtoms_sound (by simpa using hp)
          exact ⟨p.1, p.2, caps2, hs, hseq, ih hcaps2, hmap.symm⟩

theorem matchItems_complete {items : List RItem} {s : List Char}
    {caps : List (List Char)} (h : ItemsSpec items s caps) :
    (matchItems items s).isSome := by
  induction items generalizing s caps with
  | nil => simp [matchItems]
  | cons it rest ih =>
      cases it with
      | eos =>
          obtain ⟨rfl, hrest⟩ := h
          simpa [matchItems] using ih hrest
      | atom a =>
          obtain ⟨c, r, rfl, ha, hrest⟩ := h
          simp only [matchItems]
          exact findSome_isSome_of_mem (runAtom_complete ha) (ih hrest)
      | grp as =>
          obtain ⟨c, r, caps2, rfl, hseq, hrest, rfl⟩ := h
          simp only [matchItems]
          refine findSome_isSome_of_mem (runAtoms_complete hseq) ?_
          simpa using ih hrest

/-- If the four-component section pattern `^(\d+\.\d+\.\d+\.\d+)\s*(.+)$`
matches a newline-free line, then the chapter pattern `^(\d+)\.\s*(.+)$`
matches it as well (so the section check is never reached). -/
theorem numDot_of_fourNum {line : List Char} (hnl : ∀ x ∈ line, x ≠ '\n')
    {caps : List (List Char)} (h : matchItems numNumNumNumPat line = some caps) :
    (matchItems numDotPat line).isSome := by
  have hspec := matchItems_sound h
  simp only [numNumNumNumPat, dotA, ItemsSpec, SeqSpec, AtomSpec] at hspec
  obtain ⟨c, r, caps2, hline, hseq, hrest, -⟩ := hspec
  obtain ⟨d1, c2, rfl, hd1, hseq⟩ := hseq
  obtain ⟨p1, c3, rfl, ⟨x1, rfl, hx1⟩, hseq⟩ := hseq
  obtain ⟨d2, c4, rfl, hd2, hseq⟩ := hseq
  obtain ⟨p2, c5, rfl, ⟨x2, rfl, hx2⟩, hseq⟩ := hseq
  obtain ⟨d3, c6, rfl, hd3, hseq⟩ := hseq
  obtain ⟨p3, c7, rfl, ⟨x3, rfl, hx3⟩, hseq⟩ := hseq
  obtain ⟨d4, c8, rfl, hd4, rfl⟩ := hseq
  obtain ⟨w, r2, rfl, hw, hrest⟩ := hrest
  obtain ⟨t, r3, caps3, rfl, ⟨t1, t2, rfl, ht1, rfl⟩, ⟨rfl, rfl⟩, rfl⟩ := hrest
  set tt := d2 ++ [x2] ++ d3 ++ [x3] ++ d4 ++ w ++ t1 with htt
  have hsub : ∀ x, x ∈ tt → x ∈ line := by
    intro x hx
    rw [hline, htt] at *
    simp only [List.mem_append, List.mem_singleton] at hx ⊢
    tauto
  have htarget : ItemsSpec numDotPat line [d1, tt] := by
    simp only [numDotPat, dotA, ItemsSpec, SeqSpec, AtomSpec]
    refine ⟨d1, [x1] ++ tt, [tt], ?_, ⟨d1, [], by simp, hd1, rfl⟩,
      ⟨[x1], tt, rfl, ⟨x1, rfl, hx1⟩, [], tt, rfl, by simp, tt, [], [], by simp,
        ⟨tt, [], by simp, ⟨?_, ?_⟩, rfl⟩, ⟨rfl, rfl⟩, rfl⟩, rfl⟩
    · rw [hline, htt]; simp [List.append_assoc]
    · rw [htt]; simp [hd2.1]
    · intro x hx
      simp only [anyCl, decide_eq_true_eq]
      exact hnl x (hsub x hx)
  exact matchItems_complete htarget

theorem upperCl_not_digit {c : Char} (h : upperCl c = true) : digitCl c = false := by
  simp only [upperCl, Bool.and_eq_true, decide_eq_true_eq] at h
  simp only [digitCl, Bool.and_eq_false_iff]
  right; simp; omega

theorem lowerCl_not_digit {c : Char} (h : lowerCl c = true) : digitCl c = false := by
  simp only [lowerCl, Bool.and_eq_true, decide_eq_true_eq] at h
  simp only [digitCl, Bool.and_eq_false_iff]
  right; simp; omega

/-- When a section pattern of the shape `^([letter]...)$` produces the match,
the captured title begins with a letter, hence is not purely numeric. -/
theorem letter_title_not_digit {cl : Char → Bool} {g : List RAtom} {line : String}
    {caps : List String}
    (hcl : ∀ c, cl c = true → digitCl c = false)
    (h : reMatch [.grp (.one cl :: g), .eos] line = some caps) :
    pyIsDigit (headTitle caps) = false := by
  simp only [reMatch, Option.map_eq_some'] at h
  obtain ⟨caps', hm, rfl⟩ := h
  have hspec := matchItems_sound hm
  simp only [ItemsSpec, SeqSpec, AtomSpec] at hspec
  obtain ⟨c, r, caps2, hl, ⟨c1, c2, rfl, ⟨x, rfl, hx⟩, hg⟩, ⟨rfl, rfl⟩, rfl⟩ := hspec
  simp [headTitle, pyIsDigit, hcl x hx]

/-- Characters of a stripped string come from the original string. -/
theorem mem_pyStrip {x : Char} {s : String} (h : x ∈ (pyStrip s).data) : x ∈ s.data := by
  simp only [pyStrip, List.mem_reverse] at h
  exact (List.dropWhile_sublist pyWs).mem
    (List.mem_reverse.mp ((List.dropWhile_sublist pyWs).mem h))

theorem chapterOf_props {i : Nat} {raw : String} {h : HeadingRef}
    (hc : chapterOf i raw = some h) :
    2 < h.title.length ∧ pyIsDigit h.title = false ∧ h.line = i + 1 := by
  unfold chapterOf at hc
  split at hc
  · exact absurd hc (by simp)
  · split at hc
    · exact absurd hc (by simp)
    · rename_i caps heq
      split at hc
      · rename_i hguard
        rw [Bool.and_eq_true] at hguard
        obtain rfl := (Option.some.inj hc).symm
        refine ⟨by simpa using hguard.1, by simpa using hguard.2, rfl⟩
      · exact absurd hc (by simp)

theorem sectionOf_props {i : Nat} {raw : String} {h : HeadingRef}
    (hnl : '\n' ∉ raw.data) (hs : sectionOf i raw = some h) :
    2 < h.title.length ∧ pyIsDigit h.title = false ∧ h.line = i + 1 := by
  have hnl' : ∀ x ∈ (pyStrip raw).data, x ≠ '\n' :=
    fun x hx hxe => hnl (hxe ▸ mem_pyStrip hx)
  unfold sectionOf at hs
  split at hs
  · exact absurd hs (by simp)
  · split at hs
    · exact absurd hs (by simp)
    · rename_i hany
      split at hs
      · exact absurd hs (by simp)
      · rename_i caps heq
        split at hs
        · rename_i hguard
          obtain rfl := (Option.some.inj hs).symm
          refine ⟨by simpa using hguard, ?_, rfl⟩
          simp only [List.any_eq_true, not_exists, not_and] at hany
          obtain ⟨p, hpmem, hpm⟩ := mem_of_findSome_eq_some heq
          simp only [sectionPatterns, List.mem_cons, List.not_mem_nil, or_false] at hpmem
          rcases hpmem with rfl | rfl | rfl | rfl | rfl | rfl
          · exact absurd (by simp [hpm])
              (hany numNumNumPat (by simp [chapterPatterns]))
          · simp only [reMatch, Option.map_eq_some'] at hpm
            obtain ⟨caps', hm, rfl⟩ := hpm
            have hdot := numDot_of_fourNum hnl' hm
            exact absurd (by simp [reMatch, hdot])
              (hany numDotPat (by simp [chapterPatterns]))
          · exact letter_title_not_digit (fun c hc => upperCl_not_digit hc) hpm
          · exact letter_title_not_digit (fun c hc => upperCl_not_digit hc) hpm
          · exact letter_title_not_digit (fun c hc => lowerCl_not_digit hc) hpm
          · exact letter_title_not_digit (fun c hc => upperCl_not_digit hc) hpm
        · exact absurd hs (by simp)

theorem pySplitNlChars_no_nl (s : List Char) :
    ∀ l ∈ pySplitNlChars s, '\n' ∉ l.data := by
  induction s with
  | nil =>
      intro l hl
      simp only [pySplitNlChars, List.mem_singleton] at hl
      simp [hl]
  | cons c cs ih =>
      intro l hl
      by_cases hc : c = '\n'
      · simp only [pySplitNlChars, if_pos hc] at hl
        rcases List.mem_cons.mp hl with rfl | hl'
        · simp
        · exact ih l hl'
      · simp only [pySplitNlChars, if_neg hc] at hl
        cases hrec : pySplitNlChars cs with
        | nil =>
            rw [hrec] at hl
            rcases List.mem_singleton.mp hl with rfl
            intro hmem
            exact hc (List.mem_singleton.mp hmem).symm
        | cons r rs =>
            rw [hrec] at hl
            rcases List.mem_cons.mp hl with rfl | hl'
            · intro hmem
              rcases List.mem_cons.mp hmem with he | hmem'
              · exact hc he.symm
              · exact ih r (hrec ▸ List.mem_cons_self r rs) hmem'
            · exact ih l (hrec ▸ List.mem_cons_of_mem r hl')

theorem snd_mem_of_mem_enumFrom {α : Type} {n : Nat} {l : List α} {p : Nat × α}
    (h : p ∈ List.enumFrom n l) : p.2 ∈ l := by
  induction l generalizing n with
  | nil => simp [List.enumFrom] at h
  | cons x xs ih =>
      rw [List.enumFrom] at h
      rcases List.mem_cons.mp h with rfl | h'
      · exact List.mem_cons_self x xs
      · exact List.mem_cons_of_mem x (ih h')

/-- C8: every heading reference placed in the chapters or sections list has
a non-empty title, longer than 2 characters and not purely numeric, and a
line number at least 1; both lists are ordered ascending by line. -/
theorem C8_heading_invariants (text : String) :
    (∀ h ∈ (extractStructure text).chapters,
      h.title ≠ "" ∧ 2 < h.title.length ∧ pyIsDigit h.title = false ∧ 1 ≤ h.line) ∧
    (∀ h ∈ (extractStructure text).sections,
      h.title ≠ "" ∧ 2 < h.title.length ∧ pyIsDigit h.title = false ∧ 1 ≤ h.line) ∧
    List.Sorted byLine (extractStructure text).chapters ∧
    List.Sorted byLine (extractStructure text).sections := by
  refine ⟨?_, ?_, ?_, ?_⟩
  · intro h hm
    have hm' : h ∈ (pySplitNl text).enum.filterMap (fun p => chapterOf p.1 p.2) :=
      (List.perm_insertionSort byLine _).mem_iff.mp (by simpa [extractStructure] using hm)
    obtain ⟨p, hp, hcp⟩ := List.mem_filterMap.mp hm'
    obtain ⟨h1, h2, h3⟩ := chapterOf_props hcp
    exact ⟨fun he => by simp [he] at h1, h1, h2, by omega⟩
  · intro h hm
    have hm' : h ∈ (pySplitNl text).enum.filterMap (fun p => sectionOf p.1 p.2) :=
      (List.perm_insertionSort byLine _).mem_iff.mp (by simpa [extractStructure] using hm)
    obtain ⟨p, hp, hcp⟩ := List.mem_filterMap.mp hm'
    have hnl : '\n' ∉ p.2.data :=
      pySplitNlChars_no_nl text.data p.2 (snd_mem_of_mem_enumFrom hp)
    obtain ⟨h1, h2, h3⟩ := sectionOf_props hnl hcp
    exact ⟨fun he => by simp [he] at h1, h1, h2, by omega⟩
  · exact List.sorted_insertionSort byLine _
  · exact List.sorted_insertionSort byLine _

/-- C8 witness: the chapter heading inferred from `"Chapter 1: Intro"`
satisfies the invariant. -/
theorem C8_heading_invariants_witness :
    (⟨"1", "Intro", 1⟩ : HeadingRef).title ≠ "" ∧
    2 < (⟨"1", "Intro", 1⟩ : HeadingRef).title.length ∧
    pyIsDigit (⟨"1", "Intro", 1⟩ : HeadingRef).title = false ∧
    1 ≤ (⟨"1", "Intro", 1⟩ : HeadingRef).line :=
  (C8_heading_invariants "Chapter 1: Intro").1 ⟨"1", "Intro", 1⟩ (by decide)

theorem digitChar_digit {m : Nat} (h : m < 10) : digitCl (Nat.digitChar m) = true := by
  interval_cases m <;> decide

theorem natDigitsAux_digits :
    ∀ fuel n, n < fuel → ∀ c ∈ natDigitsAux fuel n, digitCl c = true := by
  intro fuel
  induction fuel with
  | zero => intro n hn; omega
  | succ f ih =>
      intro n hn c hc
      by_cases h10 : n < 10
      · simp only [natDigitsAux, if_pos h10, List.mem_singleton] at hc
        exact hc ▸ digitChar_digit h10
      · simp only [natDigitsAux, if_neg h10, List.mem_append, List.mem_singleton] at hc
        rcases hc with hc | rfl
        · exact ih (n / 10) (by omega) c hc
        · exact digitChar_digit (Nat.mod_lt n (by omega))

/-- Every character of `natStr n` is a decimal digit. -/
theorem natStr_digits (n : Nat) : ∀ c ∈ (natStr n).data, digitCl c = true :=
  natDigitsAux_digits (n + 1) n (Nat.lt_succ_self n)

theorem digitVal_digitChar {m : Nat} (h : m < 10) : digitVal (Nat.digitChar m) = m := by
  interval_cases m <;> decide

theorem foldl_val_append (l : List Char) (c : Char) (a : Nat) :
    (l ++ [c]).foldl (fun a c => a * 10 + digitVal c) a =
      (l.foldl (fun a c => a * 10 + digitVal c) a) * 10 + digitVal c := by
  rw [List.foldl_append]
  rfl

theorem natDigitsAux_val :
    ∀ fuel n, n < fuel →
      (natDigitsAux fuel n).foldl (fun a c => a * 10 + digitVal c) 0 = n := by
  intro fuel
  induction fuel with
  | zero => intro n hn; omega
  | succ f ih =>
      intro n hn
      by_cases h10 : n < 10
      · simp only [natDigitsAux, if_pos h10, List.foldl_cons, List.foldl_nil]
        simpa using digitVal_digitChar h10
      · rw [natDigitsAux, if_neg h10, foldl_val_append, ih (n / 10) (by omega),
          digitVal_digitChar (Nat.mod_lt n (by omega))]
        omega

/-- `natStr` is injective. -/
theorem natStr_inj {m n : Nat} (h : natStr m = natStr n) : m = n := by
  have hd : natDigitsAux (m + 1) m = natDigitsAux (n + 1) n :=
    congrArg String.data h
  have hm := natDigitsAux_val (m + 1) m (Nat.lt_succ_self m)
  have hn := natDigitsAux_val (n + 1) n (Nat.lt_succ_self n)
  rw [hd] at hm
  omega

theorem strData_append (a b : String) : (a ++ b).data = a.data ++ b.data := by
  cases a; cases b; rfl

/-- Splitting at a separator that occurs in neither prefix is unambiguous. -/
theorem split_at_sep {sep : Char} :
    ∀ {d1 : List Char} {d2 e1 e2 : List Char}, (∀ c ∈ d1, c ≠ sep) →
      (∀ c ∈ d2, c ≠ sep) →
      d1 ++ sep :: e1 = d2 ++ sep :: e2 → d1 = d2 ∧ e1 = e2 := by
  intro d1
  induction d1 with
  | nil =>
      intro d2 e1 e2 h1 h2 he
      cases d2 with
      | nil => simpa using he
      | cons x xs =>
          simp only [List.nil_append, List.cons_append, List.cons.injEq] at he
          exact absurd he.1.symm (h2 x (List.mem_cons_self x xs))
  | cons x xs ih =>
      intro d2 e1 e2 h1 h2 he
      cases d2 with
      | nil =>
          simp only [List.nil_append, List.cons_append, List.cons.injEq] at he
          exact absurd he.1 (h1 x (List.mem_cons_self x xs))
      | cons y ys =>
          simp only [List.cons_append, List.cons.injEq] at he
          obtain ⟨rfl, he'⟩ := he
          obtain ⟨hd, hee⟩ := ih (fun c hc => h1 c (List.mem_cons_of_mem x hc))
            (fun c hc => h2 c (List.mem_cons_of_mem x hc)) he'
          exact ⟨by rw [hd], hee⟩

theorem digit_ne_underscore {c : Char} (h : digitCl c = true) : c ≠ '_' := by
  intro he; subst he; exact absurd h (by decide)

theorem digit_ne_dot {c : Char} (h : digitCl c = true) : c ≠ '.' := by
  intro he; subst he; exact absurd h (by decide)

/-- Distinct `(page, index)` pairs give distinct temp paths. -/
theorem tempImagePath_inj {p1 i1 p2 i2 : Nat}
    (h : tempImagePath p1 i1 = tempImagePath p2 i2) : p1 = p2 ∧ i1 = i2 := by
  have hd : "temp_image_".data ++ ((natStr p1).data ++
        '_' :: ((natStr i1).data ++ '.' :: "png".data)) =
      "temp_image_".data ++ ((natStr p2).data ++
        '_' :: ((natStr i2).data ++ '.' :: "png".data)) := by
    have h0 := congrArg String.data h
    simpa [tempImagePath, strData_append, List.append_assoc] using h0
  have hcancel := List.append_cancel_left hd
  have hsplit := split_at_sep
    (fun c hc => digit_ne_underscore (natStr_digits p1 c hc))
    (fun c hc => digit_ne_underscore (natStr_digits p2 c hc)) hcancel
  have hsplit2 := split_at_sep
    (fun c hc => digit_ne_dot (natStr_digits i1 c hc))
    (fun c hc => digit_ne_dot (natStr_digits i2 c hc)) hsplit.2
  exact ⟨natStr_inj (congrArg String.mk hsplit.1),
    natStr_inj (congrArg String.mk hsplit2.1)⟩

theorem processImage_fs (mistral : Bool) (pageNum imgIndex : Nat) (c : ImgCase)
    (st : List String × List OcrResult) (h : isWriteFail c.conv = false) :
    (processImage mistral pageNum imgIndex c st).1 = st.1 := by
  cases hc : c.conv with
  | convFail m => simp [processImage, hc]
  | writeFail m => rw [hc] at h; simp [isWriteFail] at h
  | written => simp [processImage, hc, List.erase_cons_head]

theorem processImages_fs (mistral : Bool) (pageNum : Nat) :
    ∀ (idx : Nat) (cs : List ImgCase) (st : List String × List OcrResult),
      (∀ c ∈ cs, isWriteFail c.conv = false) →
      (processImages mistral pageNum idx cs st).1 = st.1 := by
  intro idx cs
  induction cs generalizing idx with
  | nil => intro st _; rfl
  | cons c rest ih =>
      intro st h
      rw [processImages,
        ih (idx + 1) _ (fun c1 hc1 => h c1 (List.mem_cons_of_mem _ hc1)),
        processImage_fs mistral pageNum idx c st (h c (List.mem_cons_self c rest))]

theorem processPages_fs (mistral : Bool) :
    ∀ (pageNum : Nat) (pgs : List (List ImgCase)) (st : List String × List OcrResult),
      (∀ pg ∈ pgs, ∀ c ∈ pg, isWriteFail c.conv = false) →
      (processPages mistral pageNum pgs st).1 = st.1 := by
  intro pageNum pgs
  induction pgs generalizing pageNum with
  | nil => intro st _; rfl
  | cons pg rest ih =>
      intro st h
      rw [processPages,
        ih (pageNum + 1) _ (fun p hp => h p (List.mem_cons_of_mem _ hp)),
        processImages_fs mistral pageNum 0 pg st (h pg (List.mem_cons_self pg rest))]

theorem mem_writtenPathsImgs {pageNum : Nat} {x : String} :
    ∀ {idx : Nat} {cs : List ImgCase}, x ∈ writtenPathsImgs pageNum idx cs →
      ∃ j, idx ≤ j ∧ x = tempImagePath pageNum j := by
  intro idx cs
  induction cs generalizing idx with
  | nil => intro h; simp [writtenPathsImgs] at h
  | cons c rest ih =>
      intro h
      simp only [writtenPathsImgs, List.mem_append] at h
      rcases h with h | h
      · refine ⟨idx, Nat.le_refl idx, ?_⟩
        by_cases hc : createsFile c.conv = true
        · rw [if_pos hc] at h
          simpa using h
        · rw [if_neg hc] at h
          simp at h
      · obtain ⟨j, hj, hx⟩ := ih h
        exact ⟨j, by omega, hx⟩

theorem mem_writtenPaths {x : String} :
    ∀ {pageNum : Nat} {pgs : List (List ImgCase)}, x ∈ writtenPaths pageNum pgs →
      ∃ p j, pageNum ≤ p ∧ x = tempImagePath p j := by
  intro pageNum pgs
  induction pgs generalizing pageNum with
  | nil => intro h; simp [writtenPaths] at h
  | cons pg rest ih =>
      intro h
      simp only [writtenPaths, List.mem_append] at h
      rcases h with h | h
      · obtain ⟨j, _, hx⟩ := mem_writtenPathsImgs h
        exact ⟨pageNum, j, Nat.le_refl pageNum, hx⟩
      · obtain ⟨p, j, hp, hx⟩ := ih h
        exact ⟨p, j, by omega, hx⟩

theorem nodup_writtenPathsImgs (pageNum : Nat) :
    ∀ (idx : Nat) (cs : List ImgCase), (writtenPathsImgs pageNum idx cs).Nodup := by
  intro idx cs
  induction cs generalizing idx with
  | nil => simp [writtenPathsImgs]
  | cons c rest ih =>
      by_cases hc : createsFile c.conv = true
      · simp only [writtenPathsImgs]
        rw [if_pos hc]
        simp only [List.singleton_append, List.nodup_cons]
        refine ⟨fun hmem => ?_, ih (idx + 1)⟩
        obtain ⟨j, hj, hx⟩ := mem_writtenPathsImgs hmem
        have := (tempImagePath_inj hx).2
        omega
      · simp only [writtenPathsImgs]
        rw [if_neg hc]
        simpa using ih (idx + 1)

theorem nodup_writtenPaths :
    ∀ (pageNum : Nat) (pgs : List (List ImgCase)), (writtenPaths pageNum pgs).Nodup := by
  intro pageNum pgs
  induction pgs generalizing pageNum with
  | nil => simp [writtenPaths]
  | cons pg rest ih =>
      simp only [writtenPaths]
      refine List.Nodup.append (nodup_writtenPathsImgs pageNum 0 pg) (ih (pageNum + 1)) ?_
      intro x hx hx'
      obtain ⟨j, _, rfl⟩ := mem_writtenPathsImgs hx
      obtain ⟨p, j2, hp, hx2⟩ := mem_writtenPaths hx'
      have := (tempImagePath_inj hx2).1
      omega

/-- C9 (counterexample): a write exception raised inside `with open(...)`
after `open()` has created temp_image_0_0.png (e.g. the disk filling up
mid-write) is caught by the per-image handler, which continues without
reaching `os.remove`, so the extraction terminates with that temp file
still on disk — a failure path with a leftover temp file. -/
theorem C9_write_failure_leaks_temp_file :
    (extractImagesAndOcr true
        (.ok [[⟨.writeFail "No space left on device",
            ⟨true, none, none, .error "unused"⟩, .error "unused", .error "unused"⟩]])
        []).1 = [tempImagePath 0 0] ∧
    tempImagePath 0 0 = "temp_image_0_0.png" := by
  refine ⟨rfl, ?_⟩
  decide

/-- C9 (amended): the temp paths created during one extraction are pairwise
distinct (path unique to that extraction), and on every execution where no
temp-file write itself raises mid-write, each image step — success,
classification and OCR failures included — removes its temp file before
moving on, so such an extraction terminates with no leftover temp file; a
mid-write failure, by contrast, leaves its file behind. -/
theorem C9_temp_files_unique_and_cleaned (mistral : Bool)
    (doc : List (List ImgCase)) (fs : List String)
    (h : ∀ pg ∈ doc, ∀ c ∈ pg, isWriteFail c.conv = false) :
    (∀ (p i : Nat) (c : ImgCase) (st : List String × List OcrResult),
        isWriteFail c.conv = false → (processImage mistral p i c st).1 = st.1) ∧
    (extractImagesAndOcr mistral (.ok doc) fs).1 = fs ∧
    (writtenPaths 0 doc).Nodup :=
  ⟨fun p i c st hc => processImage_fs mistral p i c st hc,
   processPages_fs mistral 0 doc (fs, []) h,
   nodup_writtenPaths 0 doc⟩

/-- C9 witness: on a concrete one-page, two-image document whose writes all
complete, the hypothesis holds and the extraction gives back the temp-file
set unchanged, with pairwise-distinct written paths. -/
theorem C9_temp_files_unique_and_cleaned_witness :
    (∀ pg ∈ c9doc, ∀ c ∈ pg, isWriteFail c.conv = false) ∧
    ((extractImagesAndOcr false (.ok c9doc) ["keep.png"]).1 = ["keep.png"] ∧
      (writtenPaths 0 c9doc).Nodup) :=
  ⟨by decide,
   (C9_temp_files_unique_and_cleaned false c9doc ["keep.png"] (by decide)).2⟩

/-- C4 (counterexample): with an existing, readable one-page PDF whose
image-extraction subsystem fails to open (`fitz.open` raises), the
document-assembly operation does NOT raise: it returns a success result
with zero images — the failure is caught and logged inside
`_extract_images_and_ocr`. -/
theorem C4_image_failure_not_raised :
    extractTextFromPdf ⟨true, .ok [.ok (some "zzz!") 0], .error "cannot open PDF", true⟩ ≠
        .error "cannot open PDF" ∧
    extractTextFromPdf ⟨true, .ok [.ok (some "zzz!") 0], .error "cannot open PDF", true⟩ =
        .ok ⟨true, "--- Page 1 ---\nzzz!\n\n", ⟨[], []⟩, [⟨1, 4, false, none⟩], 0, 1,
          ⟨0, 0, 0, 0⟩⟩ := by
  constructor
  · decide
  · decide

/-- C4 (amended): for every per-page text outcome, when the file exists and
text extraction opens fine but the image-extraction subsystem fails as a
whole, `extract_text_from_pdf` returns a success result with an empty image
list (count 0 and zero content breakdown) instead of raising. -/
theorem C4_image_failure_swallowed (pages : List PageOutcome) (msg : String)
    (mistral : Bool) :
    extractTextFromPdf ⟨true, .ok pages, .error msg, mistral⟩ =
      .ok ⟨true, (extractTextWithPdfplumber pages).text ++ "\n\n" ++ "",
        extractStructure (extractTextWithPdfplumber pages).text,
        (extractTextWithPdfplumber pages).pages, 0, pages.length,
        ⟨0, 0, 0, 0⟩⟩ := rfl

/- Idempotence of `pyStrip`. -/

theorem dropWhile_head_false (p : Char → Bool) (l : List Char) :
    ∀ c cs, l.dropWhile p = c :: cs → p c = false := by
  induction l with
  | nil => intro c cs h; simp [List.dropWhile] at h
  | cons x xs ih =>
      intro c cs h
      by_cases hx : p x = true
      · rw [List.dropWhile_cons, if_pos hx] at h
        exact ih c cs h
      · rw [List.dropWhile_cons, if_neg hx] at h
        obtain ⟨rfl, -⟩ := List.cons.injEq .. ▸ h
        simpa using hx

theorem dropWhile_idem (p : Char → Bool) (l : List Char) :
    (l.dropWhile p).dropWhile p = l.dropWhile p := by
  cases h : l.dropWhile p with
  | nil => rfl
  | cons c cs =>
      rw [List.dropWhile_cons, if_neg (by simp [dropWhile_head_false p l c cs h])]

theorem dropTrail_prefix (p : Char → Bool) (l : List Char) :
    dropTrail p l <+: l := by
  have hs : l.reverse.dropWhile p <:+ l.reverse := List.dropWhile_suffix p
  have := List.reverse_prefix.mpr hs
  simpa [dropTrail] using this

theorem prefix_head_false {p : Char → Bool} {k l : List Char} {c : Char} {cs : List Char}
    (hp : k <+: l) (hk : k = c :: cs) (hl : ∀ d ds, l = d :: ds → p d = false) :
    p c = false := by
  obtain ⟨t, ht⟩ := hp
  subst hk
  exact hl c (cs ++ t) ht.symm

theorem stripChars_idem (p : Char → Bool) (l : List Char) :
    dropTrail p ((dropTrail p (l.dropWhile p)).dropWhile p) =
      dropTrail p (l.dropWhile p) := by
  have hml : ∀ d ds, l.dropWhile p = d :: ds → p d = false :=
    fun d ds h => dropWhile_head_false p l d ds h
  have hpre : dropTrail p (l.dropWhile p) <+: l.dropWhile p :=
    dropTrail_prefix p (l.dropWhile p)
  have hdropk : (dropTrail p (l.dropWhile p)).dropWhile p =
      dropTrail p (l.dropWhile p) := by
    cases hkc : dropTrail p (l.dropWhile p) with
    | nil => rfl
    | cons c cs =>
        rw [List.dropWhile_cons,
          if_neg (by simp [prefix_head_false hpre hkc hml])]
  rw [hdropk]
  have hrev : (dropTrail p (l.dropWhile p)).reverse =
      (l.dropWhile p).reverse.dropWhile p := by
    simp [dropTrail]
  show ((dropTrail p (l.dropWhile p)).reverse.dropWhile p).reverse = _
  rw [hrev, dropWhile_idem, ← hrev, List.reverse_reverse]

/-- `pyStrip` is idempotent. -/
theorem pyStrip_idem (s : String) : pyStrip (pyStrip s) = pyStrip s :=
  congrArg String.mk (stripChars_idem pyWs s.data)

/-- Every row emitted by `parseItem` is a normalised row whose four fields
are stripped strings. -/
theorem parseItem_shape (loads : String → Option PyVal) (item : PyVal) :
    ∀ r ∈ parseItem loads item,
      ∃ a b c d, r = mkRow (pyStrip a) (pyStrip b) (pyStrip c) (pyStrip d) := by
  intro r hr
  cases item with
  | str s =>
      rw [parseItem] at hr
      cases hl : loads (stripFence s) with
      | none =>
          rw [hl] at hr
          simp only [List.mem_singleton] at hr
          exact ⟨"", "", s, "", hr⟩
      | some v =>
          rw [hl] at hr
          cases v with
          | list xs =>
              simp only [List.mem_filterMap] at hr
              obtain ⟨x, hx, hxr⟩ := hr
              cases x <;> simp only [Option.some.injEq, reduceCtorEq] at hxr
              case dict kvs => exact ⟨_, _, _, _, hxr.symm⟩
          | dict kvs =>
              simp only [List.mem_singleton] at hr
              exact ⟨_, _, _, _, hr⟩
          | str s2 =>
              simp only [List.mem_singleton] at hr
              exact ⟨"", "", s, "", hr⟩
          | int n =>
              simp only [List.mem_singleton] at hr
              exact ⟨"", "", s, "", hr⟩
          | bool b =>
              simp only [List.mem_singleton] at hr
              exact ⟨"", "", s, "", hr⟩
          | none =>
              simp only [List.mem_singleton] at hr
              exact ⟨"", "", s, "", hr⟩
  | dict kvs =>
      simp only [parseItem, List.mem_singleton] at hr
      exact ⟨_, _, _, _, hr⟩
  | int n =>
      simp only [parseItem, List.mem_singleton] at hr
      exact ⟨"", "", pyStr (.int n), "", hr⟩
  | bool b =>
      simp only [parseItem, List.mem_singleton] at hr
      exact ⟨"", "", pyStr (.bool b), "", hr⟩
  | none =>
      simp only [parseItem, List.mem_singleton] at hr
      exact ⟨"", "", pyStr PyVal.none, "", hr⟩
  | list xs =>
      simp only [parseItem, List.mem_singleton] at hr
      exact ⟨"", "", pyStr (.list xs), "", hr⟩

/-- A normalised row re-normalises to exactly itself. -/
theorem parseItem_mkRow (loads : String → Option PyVal) (a b c d : String) :
    parseItem loads (mkRow (pyStrip a) (pyStrip b) (pyStrip c) (pyStrip d)) =
      [mkRow (pyStrip a) (pyStrip b) (pyStrip c) (pyStrip d)] := by
  simp [mkRow, parseItem, rowOfDict, pyGet, List.find?, pyStr, pyStrip_idem]

theorem flatMap_self_of_shape (loads : String → Option PyVal) :
    ∀ l : List PyVal,
      (∀ r ∈ l, ∃ a b c d,
        r = mkRow (pyStrip a) (pyStrip b) (pyStrip c) (pyStrip d)) →
      l.flatMap (parseItem loads) = l := by
  intro l
  induction l with
  | nil => intro _; rfl
  | cons r rest ih =>
      intro hs
      obtain ⟨a, b, c, d, hreq⟩ := hs r (List.mem_cons_self r rest)
      rw [List.flatMap_cons, hreq, parseItem_mkRow,
        ih (fun x hx => hs x (List.mem_cons_of_mem r hx))]
      rfl

/-- C7: `parse_json_data` is idempotent — applied to its own output
(whatever mixture of dictionaries, plain strings, fenced JSON strings and
other values the input was) it returns exactly the same normalised rows. -/
theorem C7_parse_json_data_idempotent (loads : String → Option PyVal)
    (data : List PyVal) :
    parseJsonData loads (parseJsonData loads data) = parseJsonData loads data := by
  unfold parseJsonData
  apply flatMap_self_of_shape
  intro r hr
  obtain ⟨item, hitem, hrm⟩ := List.mem_flatMap.mp hr
  exact parseItem_shape loads item r hrm

theorem mem_detailedSheets {x : String} {dc : DetailedContent}
    (h : x ∈ detailedSheets dc) : x = "Tables" ∨ x = "Formulas" ∨ x = "Diagrams" := by
  simp only [detailedSheets, List.mem_append] at h
  rcases h with (h | h) | h
  · split at h
    · split at h
      · exact Or.inl (List.mem_singleton.mp h)
      · simp at h
    · simp at h
  · split at h
    · exact Or.inr (Or.inl (List.mem_singleton.mp h))
    · simp at h
  · split at h
    · exact Or.inr (Or.inr (List.mem_singleton.mp h))
    · simp at h

/-- C6 (counterexample): calling the advanced spreadsheet writer with no
metadata object still produces a `Summary` sheet — the summary block is
outside the `if metadata:` guard — so the produced workbook is
`[Content, Summary]`, not metadata-free of both sheets. -/
theorem C6_summary_present_without_metadata :
    advancedExcelSheets Option.none Option.none = ["Content", "Summary"] ∧
    "Summary" ∈ advancedExcelSheets Option.none Option.none :=
  ⟨rfl, by simp [advancedExcelSheets]⟩

/-- C6 (amended): the `Metadata` sheet appears exactly when a non-empty
metadata mapping is supplied, while the `Summary` sheet is always present
(with zero table/formula/diagram counts when metadata is absent). -/
theorem C6_metadata_summary_sheets (metadata : Option (List (String × PyVal)))
    (detailed : Option DetailedContent) :
    ("Metadata" ∈ advancedExcelSheets metadata detailed ↔
      ∃ kvs, metadata = some kvs ∧ kvs ≠ []) ∧
    "Summary" ∈ advancedExcelSheets metadata detailed := by
  constructor
  · constructor
    · intro hm
      simp only [advancedExcelSheets, List.append_assoc, List.mem_append,
        List.mem_cons, List.not_mem_nil, List.mem_singleton] at hm
      rcases hm with h | h | h
      · exact absurd h (by decide)
      · match metadata with
        | Option.none => simp at h
        | some kvs =>
            refine ⟨kvs, rfl, ?_⟩
            intro he
            subst he
            simp at h
      · rcases h with h | h
        · exact absurd h (by decide)
        · match detailed with
          | Option.none => simp at h
          | some dc =>
              rcases mem_detailedSheets h with h' | h' | h' <;>
                exact absurd h' (by decide)
    · rintro ⟨kvs, rfl, hk⟩
      simp [advancedExcelSheets, List.isEmpty_iff, hk]
  · simp [advancedExcelSheets]

/-- C5: the result dictionary of `generate_educational_content` never
contains a `content_items` (or `total_items`) key — in particular not when
`success` is true — although the repository's own test
(`test_specific_subtopics.py`) and its caller
(`pdf_service._analyze_content_with_llm`) read `result['content_items']`. -/
theorem C5_success_lacks_content_items (env : GenEnv) (text contentType : String)
    (topic : Option String) (difficulty audience : String) :
    dLookup (generateEducationalContent env text contentType topic difficulty audience)
        "content_items" = Option.none ∧
    dLookup (generateEducationalContent env text contentType topic difficulty audience)
        "total_items" = Option.none ∧
    (∀ response, env.gen = .ok response →
      dLookup (generateEducationalContent env text contentType topic difficulty audience)
          "success" = some (.bool true)) := by
  rcases env with ⟨g, kc, lds, pa, pt⟩
  cases g with
  | error e => exact ⟨rfl, rfl, fun response h => by simp at h⟩
  | ok r => exact ⟨rfl, rfl, fun response h => rfl⟩

/-- C5 witness: a concrete successful generation call carries
`success = True` and no `content_items` key. -/
theorem C5_success_lacks_content_items_witness :
    dLookup (generateEducationalContent
        ⟨.ok "Complex numbers extend the reals.", .error "quota",
          fun _ => Option.none, PyVal.none, PyVal.none⟩
        "Complex Numbers text" "educational" (some "Complex Numbers")
        "intermediate" "students") "content_items" = Option.none ∧
    dLookup (generateEducationalContent
        ⟨.ok "Complex numbers extend the reals.", .error "quota",
          fun _ => Option.none, PyVal.none, PyVal.none⟩
        "Complex Numbers text" "educational" (some "Complex Numbers")
        "intermediate" "students") "success" = some (.bool true) :=
  ⟨(C5_success_lacks_content_items
      ⟨.ok "Complex numbers extend the reals.", .error "quota",
        fun _ => Option.none, PyVal.none, PyVal.none⟩
      "Complex Numbers text" "educational" (some "Complex Numbers")
      "intermediate" "students").1,
   (C5_success_lacks_content_items
      ⟨.ok "Complex numbers extend the reals.", .error "quota",
        fun _ => Option.none, PyVal.none, PyVal.none⟩
      "Complex Numbers text" "educational" (some "Complex Numbers")
      "intermediate" "students").2.2 "Complex numbers extend the reals." rfl⟩

/-- Whatever the oracle outcomes, the per-chapter block produces exactly
the basic fallback row: a failed call takes the explicit fallback branch,
and a successful call raises `KeyError: content_items` (the success
dictionary has no such key) which the handler turns into the same row. -/
theorem chapterItems_generate (env : GenEnv) (t ct : String) (topic : Option String)
    (d a topicStr chText : String) :
    chapterItems (generateEducationalContent env t ct topic d a) topicStr chText =
      [fallbackItem topicStr chText] := by
  rcases env with ⟨g, kc, lds, pa, pt⟩
  cases g with
  | error e => rfl
  | ok r => rfl

theorem flatMap_enumFrom_singleton {α β : Type} (g : α → β) (h : Nat × α → List β)
    (hh : ∀ p, h p = [g p.2]) :
    ∀ (k : Nat) (l : List α), (List.enumFrom k l).flatMap h = l.map g := by
  intro k l
  induction l generalizing k with
  | nil => rfl
  | cons x xs ih => rw [List.enumFrom, List.flatMap_cons, hh, ih]; rfl

/-- Characterisation of the content-analysis step: one basic fallback row
per chapter (or a single one for the whole text), whatever the oracles do. -/
theorem analyzeContentWithLLM_eq (envs : Nat → GenEnv) (text : String)
    (st : StructureOutline) :
    analyzeContentWithLLM envs text st =
      (if st.chapters.isEmpty then [fallbackItem "General Content" text]
       else st.chapters.map (fun ch =>
         fallbackItem (chapterTopic ch) (chapterTextOf text st.chapters ch))) := by
  unfold analyzeContentWithLLM
  by_cases he : st.chapters.isEmpty
  · rw [if_pos he, if_pos he, chapterItems_generate]
  · rw [if_neg he, if_neg he]
    exact flatMap_enumFrom_singleton
      (fun ch => fallbackItem (chapterTopic ch) (chapterTextOf text st.chapters ch))
      (fun p => chapterItems
        (generateEducationalContent (envs p.1) (chapterTextOf text st.chapters p.2)
          "educational" (some (chapterTopic p.2)) "intermediate" "students")
        (chapterTopic p.2) (chapterTextOf text st.chapters p.2))
      (fun p => chapterItems_generate (envs p.1) _ _ _ _ _ _ _) 0 st.chapters

/-- C10 (amended): the content-analysis step is a total function that
always returns at least one item; in fact every returned item is the basic
fallback record `{topic, subtopic, content, video_link}` — one per chapter
(or one for the whole text when no chapters were found) — whose `content`
is the (chapter) text itself when it has at most 1000 characters and its
first 1000 characters followed by `"..."` otherwise. -/
theorem C10_analyze_total_fallback (envs : Nat → GenEnv) (text : String)
    (st : StructureOutline) :
    analyzeContentWithLLM envs text st ≠ [] ∧
    analyzeContentWithLLM envs text st =
      (if st.chapters.isEmpty then [fallbackItem "General Content" text]
       else st.chapters.map (fun ch =>
         fallbackItem (chapterTopic ch) (chapterTextOf text st.chapters ch))) := by
  refine ⟨?_, analyzeContentWithLLM_eq envs text st⟩
  rw [analyzeContentWithLLM_eq envs text st]
  by_cases he : st.chapters.isEmpty
  · simp [he]
  · rw [if_neg he]
    simp only [ne_eq, List.map_eq_nil_iff]
    exact fun h => he (by simp [h])

theorem pySplitNlChars_append_nl {l : List Char} (hl : ∀ c ∈ l, c ≠ '\n')
    (r : List Char) :
    pySplitNlChars (l ++ '\n' :: r) = (⟨l⟩ : String) :: pySplitNlChars r := by
  induction l with
  | nil => simp [pySplitNlChars]
  | cons c cs ih =>
      have hc : ¬(c = '\n') := hl c (List.mem_cons_self c cs)
      rw [List.cons_append, pySplitNlChars, if_neg hc,
        ih (fun x hx => hl x (List.mem_cons_of_mem c hx))]

theorem c10_split : pySplitNl c10text = [⟨List.replicate 1100 'a'⟩, "end"] := by
  have hnl : ∀ c ∈ List.replicate 1100 'a', c ≠ '\n' := by
    intro c hc
    rw [List.eq_of_mem_replicate hc]
    decide
  have hdata : c10text.data = List.replicate 1100 'a' ++ '\n' :: "end".data := by
    simp only [c10text, strData_append]
  show pySplitNlChars c10text.data = _
  rw [hdata, pySplitNlChars_append_nl hnl]
  exact congrArg (fun z => (⟨List.replicate 1100 'a'⟩ : String) :: z)
    (show pySplitNlChars "end".data = ["end"] from rfl)

theorem c10_chText :
    chapterTextOf c10text [⟨"1", "T", 1⟩] ⟨"1", "T", 1⟩ =
      (⟨List.replicate 1100 'a'⟩ : String) := by
  unfold chapterTextOf chapterEnd
  rw [c10_split]
  rfl

theorem c10_truncate :
    truncate1000 (⟨List.replicate 1100 'a'⟩ : String) =
      (⟨List.replicate 1000 'a'⟩ : String) ++ "..." := by
  have hlen : (⟨List.replicate 1100 'a'⟩ : String).length = 1100 := by
    show (List.replicate 1100 'a').length = 1100
    rw [List.length_replicate]
  unfold truncate1000
  rw [if_pos (by omega)]
  have htake : (⟨List.replicate 1100 'a'⟩ : String).data.take 1000 =
      List.replicate 1000 'a' := by
    show (List.replicate 1100 'a').take 1000 = List.replicate 1000 'a'
    rw [List.take_replicate]
    norm_num
  rw [htake]

theorem c10_len : ((⟨List.replicate 1000 'a'⟩ : String) ++ "...").length = 1003 := by
  show ((⟨List.replicate 1000 'a'⟩ : String) ++ "...").data.length = 1003
  rw [strData_append, List.length_append, List.length_replicate]
  rfl

theorem c10_not_prefix :
    ((⟨List.replicate 1000 'a'⟩ : String) ++ "...").data.isPrefixOf
        (⟨List.replicate 1100 'a'⟩ : String).data = false := by
  rw [Bool.eq_false_iff]
  intro hp
  have hp' := List.isPrefixOf_iff_prefix.mp hp
  obtain ⟨t, ht⟩ := hp'
  rw [strData_append] at ht
  have h1100 : (List.replicate 1100 'a' : List Char) =
      List.replicate 1000 'a' ++ List.replicate 100 'a' := by
    rw [← List.replicate_add]
  rw [h1100, List.append_assoc] at ht
  have hx := List.append_cancel_left ht
  rw [List.replicate_succ] at hx
  simp at hx

/-- C10 (counterexample): with one chapter whose text has 1100 characters
and every LLM call failing, the single returned fallback item's content is
the first 1000 characters followed by `"..."` — 1003 characters long and
NOT a prefix of the chapter text — refuting "a prefix of the (chapter)
text of at most 1000 characters". -/
theorem C10_fallback_not_a_prefix :
    analyzeContentWithLLM
        (fun _ => ⟨.error "429 quota", .error "429 quota", fun _ => Option.none,
          PyVal.none, PyVal.none⟩)
        c10text ⟨[⟨"1", "T", 1⟩], []⟩ =
      [PyVal.dict [("topic", .str "Chapter 1: T"), ("subtopic", .str "Main Content"),
        ("content", .str ((⟨List.replicate 1000 'a'⟩ : String) ++ "...")),
        ("video_link", .str "")]] ∧
    ((⟨List.replicate 1000 'a'⟩ : String) ++ "...").length = 1003 ∧
    ((⟨List.replicate 1000 'a'⟩ : String) ++ "...").data.isPrefixOf
        (⟨List.replicate 1100 'a'⟩ : String).data = false := by
  refine ⟨?_, c10_len, c10_not_prefix⟩
  rw [analyzeContentWithLLM_eq]
  simp only [List.isEmpty_cons, Bool.false_eq_true, if_false, List.map_cons,
    List.map_nil]
  rw [c10_chText]
  unfold fallbackItem chapterTopic
  rw [c10_truncate]
  rfl

/-- C6 witness: with a non-empty metadata mapping supplied, both the
`Metadata` and the `Summary` sheet appear. -/
theorem C6_metadata_summary_sheets_witness :
    "Metadata" ∈ advancedExcelSheets (some [("source", PyVal.str "doc.pdf")]) Option.none ∧
    "Summary" ∈ advancedExcelSheets (some [("source", PyVal.str "doc.pdf")]) Option.none :=
  ⟨(C6_metadata_summary_sheets (some [("source", PyVal.str "doc.pdf")]) Option.none).1.mpr
      ⟨[("source", PyVal.str "doc.pdf")], rfl, List.cons_ne_nil _ _⟩,
   (C6_metadata_summary_sheets (some [("source", PyVal.str "doc.pdf")]) Option.none).2⟩
